import Mathlib

/-!
Verification of the reposync file-transformation rule engine.

This file gives a shallow embedding, in Lean 4, of the engine's core:
the augmentation engine (rule loader, condition evaluator, action handler,
orchestrator in `src/packages/nsync/src/core/augmentation/`) and the
file-update DSL (`src/packages/nsync/src/core/file-update.ts`), and proves
or refutes the behavioural claims of the specification against it.

Modelling conventions:
* JavaScript values flowing through the engine are modelled by the
  inductive `Value` (null, booleans, numbers as integers, strings,
  arrays, objects as ordered association lists).  Prototype-chain
  properties of JS objects are outside the model; objects carry only
  their own enumerable keys, in insertion order.
* File content is modelled by `Content`: either `raw s` (text that parses
  neither as a YAML nor as a JSON document) or a document value paired
  with its detected format.  Serialization is canonical: two contents are
  equal iff they have the same format and the same document tree, which
  mirrors `stringifyYAML` / `JSON.stringify` being functions of the tree.
* `undefined` is modelled by `Option.none`; a caught JS exception inside
  a handler is modelled by the handler's no-change result, matching the
  `try { ... } catch { return { content } }` wrappers in the source.
* JS `RegExp` objects built from rule-supplied pattern strings are
  modelled by an oracle parameter `JsRegex` (a pair of pure functions);
  no settled claim depends on their semantics.  The one concrete regex
  the claims exercise — the hard-coded pattern
  `(?<pre>.+?)-(?<ver>[\d.]+)\.(?<ext>\w+)` of
  `createRegexFromPattern` — is implemented faithfully as `matchCanon`.
-/

namespace RepoSync

/-! ### Character classes and low-level string helpers (JS semantics) -/

/-- JS `\s` restricted to ASCII (the engine only meets ASCII whitespace). -/
def isJsWs (c : Char) : Bool :=
  c = ' ' || c = '\t' || c = '\n' || c = '\r' || c = '\x0b' || c = '\x0c'

/-- JS `\w`, i.e. `[A-Za-z0-9_]`. -/
def isWordChar (c : Char) : Bool :=
  ('a' ≤ c && c ≤ 'z') || ('A' ≤ c && c ≤ 'Z') || c.isDigit || c = '_'

/-- The character class `[\d.]` of the hard-coded artifact pattern. -/
def isVerChar (c : Char) : Bool := c.isDigit || c = '.'

/-- `String.prototype.trim` (ASCII whitespace). -/
def jsTrimL (cs : List Char) : List Char := cs.dropWhile isJsWs

def jsTrimList (cs : List Char) : List Char :=
  ((jsTrimL cs).reverse.dropWhile isJsWs).reverse

def jsTrim (s : String) : String := ⟨jsTrimList s.data⟩

/-- `String.prototype.split(sep)` for a one-character separator.
Always returns at least one (possibly empty) piece, like JS. -/
def splitOnChar (sep : Char) : List Char → List (List Char)
  | [] => [[]]
  | c :: cs =>
    match splitOnChar sep cs with
    | [] => [[c]]
    | h :: t => if c = sep then [] :: h :: t else (c :: h) :: t

/-- `Array.prototype.join(sep)` for a one-character separator. -/
def joinChar (sep : Char) : List (List Char) → List Char
  | [] => []
  | [h] => h
  | h :: t => h ++ sep :: joinChar sep t

/-- `key.split('.')` as used by the nested-path helpers. -/
def splitKeys (key : String) : List String :=
  (splitOnChar '.' key.data).map (fun cs => ⟨cs⟩)

/-- `s.split('\n')` as a list of strings. -/
def splitLines (s : String) : List String :=
  (splitOnChar '\n' s.data).map (fun cs => ⟨cs⟩)

/-- `v.replace(/^v/, '')`: strip one leading lowercase `v`. -/
def stripLeadV (s : String) : String :=
  match s.data with
  | 'v' :: rest => ⟨rest⟩
  | _ => s

/-- Non-global `String.prototype.replace` with a plain-string pattern:
replace the first occurrence only (an empty pattern matches at index 0). -/
def replFirst : List Char → List Char → List Char → List Char
  | [], pat, rep => if pat.isEmpty then rep else []
  | c :: rest, pat, rep =>
    if pat.isPrefixOf (c :: rest) then rep ++ (c :: rest).drop pat.length
    else c :: replFirst rest pat rep

def jsReplaceFirst (s pat rep : String) : String :=
  ⟨replFirst s.data pat.data rep.data⟩

/-- Global `String.prototype.replace` with a plain (non-empty) pattern and a
replacement free of `$`-escapes; the replacement is not rescanned.  The
fuel argument only bounds recursion: the callers pass the input length,
which suffices because each step consumes at least one input character. -/
def replAll (pat rep : List Char) : Nat → List Char → List Char
  | 0, cs => cs
  | _ + 1, [] => []
  | fuel + 1, c :: rest =>
    if pat.isPrefixOf (c :: rest) then rep ++ replAll pat rep fuel ((c :: rest).drop pat.length)
    else c :: replAll pat rep fuel rest

def jsReplaceAll (s pat rep : String) : String :=
  if pat.isEmpty then s else ⟨replAll pat.data rep.data s.data.length s.data⟩

/-! ### JS `parseInt` and truthiness helpers -/

def digitVal (c : Char) : Nat := c.toNat - '0'.toNat

def hexVal (c : Char) : Option Nat :=
  if c.isDigit then some (digitVal c)
  else
    let n := c.toNat
    if 97 ≤ n && n ≤ 102 then some (n - 87)   -- lowercase a-f
    else if 65 ≤ n && n ≤ 70 then some (n - 55)  -- uppercase A-F
    else none

def natOfDigits (base : Nat) (f : Char → Option Nat) : List Char → Nat → Nat
  | [], acc => acc
  | c :: cs, acc =>
    match f c with
    | some d => natOfDigits base f cs (acc * base + d)
    | none => acc

/-- `parseInt(s)` (radix 10, with the implicit `0x` hex prefix); `none` is NaN. -/
def jsParseInt (s : String) : Option Int :=
  let cs := jsTrimL s.data
  let (sign, cs) : Int × List Char :=
    match cs with
    | '-' :: rest => (-1, rest)
    | '+' :: rest => (1, rest)
    | _ => (1, cs)
  match cs with
  | '0' :: 'x' :: rest =>
    if (rest.takeWhile (fun c => (hexVal c).isSome)).isEmpty then none
    else some (sign * Int.ofNat (natOfDigits 16 hexVal (rest.takeWhile (fun c => (hexVal c).isSome)) 0))
  | '0' :: 'X' :: rest =>
    if (rest.takeWhile (fun c => (hexVal c).isSome)).isEmpty then none
    else some (sign * Int.ofNat (natOfDigits 16 hexVal (rest.takeWhile (fun c => (hexVal c).isSome)) 0))
  | _ =>
    let ds := cs.takeWhile Char.isDigit
    if ds.isEmpty then none
    else some (sign * Int.ofNat (natOfDigits 10 (fun c => if c.isDigit then some (digitVal c) else none) ds 0))

/-- `parseInt(n) || 0`: NaN (and `-0`) collapse to `0`. -/
def jsParseIntD0 (s : String) : Int := (jsParseInt s).getD 0

/-- JS string truthiness: `s || null` drops the empty string. -/
def truthy (o : Option String) : Option String :=
  match o with
  | some s => if s = "" then none else some s
  | none => none

/-! ### The generic document value -/

/-- A JS value as it appears in parsed YAML/JSON documents: `null`,
booleans, numbers (modelled as integers; no claim involves fractional
numerics), strings, arrays, and objects as ordered key/value lists. -/
inductive Value where
  | vnull : Value
  | vbool : Bool → Value
  | vnum : Int → Value
  | vstr : String → Value
  | varr : List Value → Value
  | vobj : List (String × Value) → Value
  deriving Repr

mutual

def Value.beq : Value → Value → Bool
  | .vnull, .vnull => true
  | .vbool a, .vbool b => a == b
  | .vnum a, .vnum b => a == b
  | .vstr a, .vstr b => a == b
  | .varr xs, .varr ys => Value.beqL xs ys
  | .vobj fs, .vobj gs => Value.beqF fs gs
  | _, _ => false

def Value.beqL : List Value → List Value → Bool
  | [], [] => true
  | x :: xs, y :: ys => Value.beq x y && Value.beqL xs ys
  | _, _ => false

def Value.beqF : List (String × Value) → List (String × Value) → Bool
  | [], [] => true
  | (k, x) :: xs, (l, y) :: ys => k == l && Value.beq x y && Value.beqF xs ys
  | _, _ => false

end

mutual

def Value.beq_iff : ∀ a b : Value, Value.beq a b = true ↔ a = b
  | .vnull, b => by cases b <;> simp [Value.beq]
  | .vbool a, b => by cases b <;> simp [Value.beq]
  | .vnum a, b => by cases b <;> simp [Value.beq]
  | .vstr a, b => by cases b <;> simp [Value.beq]
  | .varr xs, b => by
    cases b <;> simp [Value.beq]
    exact Value.beqL_iff xs _
  | .vobj fs, b => by
    cases b <;> simp [Value.beq]
    exact Value.beqF_iff fs _

def Value.beqL_iff : ∀ xs ys : List Value, Value.beqL xs ys = true ↔ xs = ys
  | [], ys => by cases ys <;> simp [Value.beqL]
  | x :: xs, ys => by
    cases ys with
    | nil => simp [Value.beqL]
    | cons y ys =>
      simp [Value.beqL, Value.beq_iff x y, Value.beqL_iff xs ys]

def Value.beqF_iff :
    ∀ fs gs : List (String × Value), Value.beqF fs gs = true ↔ fs = gs
  | [], gs => by cases gs <;> simp [Value.beqF]
  | (k, x) :: fs, gs => by
    cases gs with
    | nil => simp [Value.beqF]
    | cons g gs =>
      obtain ⟨l, y⟩ := g
      simp [Value.beqF, Value.beq_iff x y, Value.beqF_iff fs gs, and_assoc]

end

instance : DecidableEq Value := fun a b =>
  decidable_of_iff (Value.beq a b = true) (Value.beq_iff a b)

/-- `typeof v === 'object'` (true for objects, arrays and `null`). -/
def Value.typeofObject : Value → Bool
  | .vnull => true
  | .varr _ => true
  | .vobj _ => true
  | _ => false

/-- Object-or-array, i.e. the `!data || typeof data !== 'object'` guard
passed (`null` is falsy, so it fails the guard despite its typeof). -/
def Value.isObjArr : Value → Bool
  | .varr _ => true
  | .vobj _ => true
  | _ => false

/-! ### File content and the document codec

`Content` models a file's text.  `raw s` stands for text that parses
neither as a YAML document nor as a JSON document (the engine's "opaque"
case); `yamlDoc v` / `jsonDoc v` stand for the canonical `stringifyYAML` /
`JSON.stringify(·, null, 2)` serialization of the tree `v`.  Canonical
serializations are injective functions of the tree, so `Content` equality
mirrors string equality of serialized documents. -/

inductive Content where
  | raw : String → Content
  | yamlDoc : Value → Content
  | jsonDoc : Value → Content
  deriving DecidableEq, Repr

/-- Serialize: `isYaml ? stringifyYAML(data) : JSON.stringify(data, null, 2)`. -/
def stringifyContent (isYaml : Bool) (v : Value) : Content :=
  if isYaml then .yamlDoc v else .jsonDoc v

/-! ### Path Resolver (`getNestedValue` / `setNestedValue` / `hasNestedKey`)

Dotted-path access over `Value`, as implemented identically in
`condition-evaluator.ts` and `action-handler.ts`.  Array elements are
reachable through canonical decimal index strings (JS array indexing);
JS array corner cases that the `Value` type cannot represent — writes
past the end creating holes, non-index properties on arrays — and
`in`/member access on primitives (a `TypeError` in the source, swallowed
by the surrounding `try/catch`) are modelled as the failure `none`. -/

/-- A canonical JS array index: decimal digits without a leading zero. -/
def arrIndex? (k : String) : Option Nat :=
  match k.data with
  | [] => none
  | ['0'] => some 0
  | c :: cs =>
    if c.isDigit && c ≠ '0' && cs.all Char.isDigit then
      some (natOfDigits 10 (fun c => if c.isDigit then some (digitVal c) else none) (c :: cs) 0)
    else none

/-- First-occurrence field lookup (`current[k]` on an object). -/
def lookupField (fs : List (String × Value)) (k : String) : Option Value :=
  match fs.find? (fun f => f.1 = k) with
  | some f => some f.2
  | none => none

/-- `current[k] = v` on an object: update in place, else append. -/
def setField : List (String × Value) → String → Value → List (String × Value)
  | [], k, v => [(k, v)]
  | (k', v') :: fs, k, v =>
    if k' = k then (k, v) :: fs else (k', v') :: setField fs k v

/-- Array element read via a path key. -/
def arrGet (xs : List Value) (k : String) : Option Value :=
  match arrIndex? k with
  | some i => xs.get? i
  | none => none

/-- `k in current`: own-key membership (object keys / in-range indices). -/
def hasOwn (v : Value) (k : String) : Bool :=
  match v with
  | .vobj fs => fs.any (fun f => f.1 = k)
  | .varr xs => (arrGet xs k).isSome
  | _ => false

/-- The loop body of `getNestedValue`: descend one key at a time,
returning `none` (JS `undefined`) as soon as a segment is missing or a
non-container is reached. -/
def getPath : Value → List String → Option Value
  | v, [] => some v
  | .vobj fs, k :: ks =>
    match lookupField fs k with
    | some v' => getPath v' ks
    | none => none
  | .varr xs, k :: ks =>
    match arrGet xs k with
    | some v' => getPath v' ks
    | none => none
  | _, _ :: _ => none

/-- `getNestedValue(obj, key)` with `key.split('.')`. -/
def getNestedValue (v : Value) (key : String) : Option Value :=
  getPath v (splitKeys key)

/-- The loop of `hasNestedKey`: every segment must be an own key of a
container on the way down. -/
def hasPath : Value → List String → Bool
  | _, [] => true
  | .vobj fs, k :: ks =>
    match lookupField fs k with
    | some v' => hasPath v' ks
    | none => false
  | .varr xs, k :: ks =>
    match arrGet xs k with
    | some v' => hasPath v' ks
    | none => false
  | _, _ :: _ => false

/-- `hasNestedKey(obj, key)` (the non-object root guard of the source is
subsumed by `hasPath`, since `key.split('.')` is never empty). -/
def hasNestedKey (v : Value) (key : String) : Bool :=
  hasPath v (splitKeys key)

/-- Array element write used by `setPath` (`i = length` appends, which is
the only out-of-range JS write the model represents). -/
def arrSet (xs : List Value) (i : Nat) (v : Value) : Option (List Value) :=
  if i < xs.length then some (xs.set i v)
  else if i = xs.length then some (xs ++ [v])
  else none

/-- The intermediate-step child of `setNestedValue` on an object:
`if (!(k in current) || typeof current[k] !== 'object') current[k] = {}`
followed by `current = current[k]`. -/
def childFor (fs : List (String × Value)) (k : String) : Value :=
  match lookupField fs k with
  | some c => if c.typeofObject then c else .vobj []
  | none => .vobj []

/-- The same intermediate-step child on an array, by index (a missing
index means `current[k] = {}` ran, which for the representable case
appends). -/
def childForArr (xs : List Value) (i : Nat) : Value :=
  match xs.get? i with
  | some c => if c.typeofObject then c else .vobj []
  | none => .vobj []

/-- `setNestedValue(obj, keys, value)`: walk intermediate keys, replacing
a missing or non-`typeof object` child with `{}`, then assign the leaf.
`none` models the JS `TypeError` paths (assignment/`in` on `null` or a
primitive), which the callers' `try/catch` turns into "no change". -/
def setPath : List String → Value → Value → Option Value
  | [], _, _ => none
  | [k], v, val =>
    (match v with
     | .vobj fs => some (.vobj (setField fs k val))
     | .varr xs =>
       (match arrIndex? k with
        | some i => (arrSet xs i val).map .varr
        | none => none)
     | _ => none)
  | k :: ks, v, val =>
    -- reachable only with `ks` non-empty: the `[k]` arm precedes
    (match v with
     | .vobj fs =>
       (match setPath ks (childFor fs k) val with
        | some c' => some (.vobj (setField fs k c'))
        | none => none)
     | .varr xs =>
       (match arrIndex? k with
        | some i =>
          (match setPath ks (childForArr xs i) val with
           | some c' => (arrSet xs i c').map .varr
           | none => none)
        | none => none)
     | _ => none)

/-- `setNestedValue(obj, key, value)` with `key.split('.')`. -/
def setNestedValue (v : Value) (key : String) (val : Value) : Option Value :=
  setPath (splitKeys key) v val

/-! ### Version Comparator of the file-update DSL
(`FileUpdateService.compareVersions` / `shouldUpdateVersion`).

`normalize` strips one leading `v`, splits on `.` and maps each piece
through `parseInt(n) || 0` — so non-numeric pieces silently become `0`.
The destructuring `[major, minor, patch] = normalize(x)` leaves missing
components `undefined`; `undefined !== number` is true and
`undefined - number` is `NaN`, so `compareVersions` returns `NaN`
(modelled as `none`) exactly when the majors agree and exactly one side
is missing its minor component.  Only the patch slot is defaulted with
`|| 0` in the source. -/

def normalizeVersion (v : String) : List Int :=
  ((splitOnChar '.' (stripLeadV v).data).map (fun cs => jsParseIntD0 ⟨cs⟩))

/-- `compareVersions(version1, version2)`; `none` is a `NaN` result. -/
def compareVersions (version1 version2 : String) : Option Int :=
  let n1 := normalizeVersion version1
  let n2 := normalizeVersion version2
  let major1 := n1.headD 0
  let major2 := n2.headD 0
  if major1 ≠ major2 then some (major1 - major2)
  else
    match n1.get? 1, n2.get? 1 with
    | some minor1, some minor2 =>
      if minor1 ≠ minor2 then some (minor1 - minor2)
      else some ((n1.get? 2).getD 0 - (n2.get? 2).getD 0)
    | none, none => some ((n1.get? 2).getD 0 - (n2.get? 2).getD 0)
    | some _, none => none  -- `undefined !== minor` holds; `minor - undefined` is NaN
    | none, some _ => none

/-- The four version strategies of the DSL (a closed TypeScript union). -/
inductive VersionStrategy where
  | replace_if_newer
  | replace_if_newer_or_equal
  | always_replace
  | never_replace
  deriving DecidableEq, Repr

/-- `shouldUpdateVersion(current, new, strategy = 'replace_if_newer')`.
`NaN > 0` and `NaN >= 0` are both false in JS, hence `none → false`. -/
def shouldUpdateVersion (currentVersion newVersion : String)
    (strategy : Option VersionStrategy) : Bool :=
  match strategy.getD .replace_if_newer with
  | .always_replace => true
  | .never_replace => false
  | .replace_if_newer =>
    match compareVersions newVersion currentVersion with
    | some d => d > 0
    | none => false
  | .replace_if_newer_or_equal =>
    match compareVersions newVersion currentVersion with
    | some d => d ≥ 0
    | none => false

/-! ### The `semver` library (as used by `ActionHandler`)

`semver.valid` / `semver.gt` on strict semantic versions:
`v?MAJOR.MINOR.PATCH(-prerelease)?(+build)?` with numeric components
free of leading zeros, after trimming. -/

inductive PreId where
  | num : Nat → PreId
  | alpha : String → PreId
  deriving DecidableEq, Repr

structure Semver where
  major : Nat
  minor : Nat
  patch : Nat
  pre : List PreId
  deriving DecidableEq, Repr

/-- A strict numeric identifier: `0|[1-9]\d*`. -/
def parseNumId (cs : List Char) : Option (Nat × List Char) :=
  let ds := cs.takeWhile Char.isDigit
  match ds with
  | [] => none
  | ['0'] => some (0, cs.drop 1)
  | c :: _ =>
    if c = '0' then none
    else some (natOfDigits 10 (fun c => if c.isDigit then some (digitVal c) else none) ds 0,
               cs.drop ds.length)

def isSemverIdChar (c : Char) : Bool := isWordChar c && c ≠ '_' || c = '-'

/-- One prerelease identifier: a strict numeric identifier or
`\d*[a-zA-Z-][a-zA-Z0-9-]*`. -/
def parsePreId (cs : List Char) : Option PreId :=
  if cs.isEmpty || !cs.all isSemverIdChar then none
  else if cs.all Char.isDigit then
    match parseNumId cs with
    | some (n, []) => some (.num n)
    | _ => none  -- all-digit with a leading zero: invalid
  else some (.alpha ⟨cs⟩)

def parsePreList (parts : List (List Char)) : Option (List PreId) :=
  match parts with
  | [] => some []
  | p :: ps =>
    match parsePreId p, parsePreList ps with
    | some i, some is => some (i :: is)
    | _, _ => none

/-- A build identifier: `[0-9A-Za-z-]+`. -/
def validBuildId (cs : List Char) : Bool := !cs.isEmpty && cs.all isSemverIdChar

/-- `semver.parse` on a strict version string; `semver.valid(s)`
is `(parseSemver s).isSome`. -/
def parseSemver (s : String) : Option Semver :=
  let cs := jsTrimList s.data
  let cs := match cs with
    | 'v' :: rest => rest
    | _ => cs
  match parseNumId cs with
  | some (major, '.' :: cs) =>
    match parseNumId cs with
    | some (minor, '.' :: cs) =>
      match parseNumId cs with
      | some (patch, rest) =>
        match rest with
        | [] => some ⟨major, minor, patch, []⟩
        | '-' :: tl =>
          match splitOnChar '+' tl with
          | [preCs] =>
            match parsePreList (splitOnChar '.' preCs) with
            | some pre => some ⟨major, minor, patch, pre⟩
            | none => none
          | [preCs, buildCs] =>
            match parsePreList (splitOnChar '.' preCs) with
            | some pre =>
              if (splitOnChar '.' buildCs).all validBuildId then
                some ⟨major, minor, patch, pre⟩
              else none
            | none => none
          | _ => none
        | '+' :: tl =>
          if (splitOnChar '.' tl).all validBuildId then some ⟨major, minor, patch, []⟩
          else none
        | _ => none
      | _ => none
    | _ => none
  | _ => none

/-- `semver.compareIdentifiers`: numbers before strings, numeric compare
and UTF-16 lexicographic string compare respectively. -/
def cmpPreId (a b : PreId) : Ordering :=
  match a, b with
  | .num m, .num n => compare m n
  | .num _, .alpha _ => .lt
  | .alpha _, .num _ => .gt
  | .alpha s, .alpha t => compare s t

def cmpPreList : List PreId → List PreId → Ordering
  | [], [] => .eq
  | [], _ :: _ => .lt
  | _ :: _, [] => .gt
  | a :: as', b :: bs' =>
    match cmpPreId a b with
    | .eq => cmpPreList as' bs'
    | o => o

/-- `semver.compare` (build metadata ignored); a prerelease sorts below
the same release version. -/
def cmpSemver (a b : Semver) : Ordering :=
  match compare a.major b.major with
  | .eq =>
    match compare a.minor b.minor with
    | .eq =>
      match compare a.patch b.patch with
      | .eq =>
        match a.pre, b.pre with
        | [], [] => .eq
        | [], _ :: _ => .gt
        | _ :: _, [] => .lt
        | _, _ => cmpPreList a.pre b.pre
      | o => o
    | o => o
  | o => o

/-- `semver.gt(a, b)` on parsed versions. -/
def semverGt (a b : Semver) : Bool := cmpSemver a b = .gt

/-! ### Augmentation data model (`types/augmentation.ts`)

The `type` discriminants are kept as strings because the evaluator and
the handler dispatch on them with a `switch` carrying a `default`
branch for unknown kinds (rules come from parsed YAML, not from
statically typed values). -/

structure Condition where
  type : String
  key : Option String := none
  pattern : Option String := none
  script : Option String := none
  deriving DecidableEq, Repr

structure Action where
  type : String
  key : Option String := none
  value : Option Value := none
  version_pattern : Option String := none
  version_source : Option String := none
  comparison : Option String := none
  script : Option String := none
  deriving DecidableEq, Repr

structure AugmentationRule where
  name : String
  description : Option String := none
  enabled : Option Bool := none
  target_files : List String
  conditions : List Condition
  actions : List Action
  deriving DecidableEq, Repr

structure AugmentationContext where
  gitTag : Option String := none
  sourceVersion : Option String := none
  targetRepository : Option String := none
  dryRun : Option Bool := none
  deriving DecidableEq, Repr

structure ChangeDescription where
  rule : String
  action : String
  key : Option String := none
  oldValue : Option Value := none
  newValue : Option Value := none
  description : String
  deriving DecidableEq, Repr

structure AugmentationResult where
  changed : Bool
  originalContent : Content
  newContent : Content
  appliedRules : List String
  changes : List ChangeDescription
  deriving DecidableEq, Repr

/-- Oracle for JS `RegExp` objects built from rule-supplied patterns:
`test pat s` is `new RegExp(pat).test(s)` and `matchG12 pat s` is
`s.match(pat)` reduced to its capture groups 1 and 2 (`none` when the
whole match fails; an inner `none` is a non-participating group).  No
settled claim depends on the oracle's semantics. -/
structure JsRegex where
  test : String → String → Bool
  matchG12 : String → String → Option (Option String × Option String)

/-! ### Document parsing inside the engine

`parseContent` (action-handler) and the inline detection of
`evaluateValueMatches` (condition-evaluator) both detect the format from
the text and fall back between parsers; on the `Content` model every
parseable document yields its tree, and `raw` text yields no data.
`safeParseJSON` never throws: malformed JSON yields `undefined`, so a
brace-led text that fails JSON parsing produces `{data: undefined,
isYaml: false}` without reaching the YAML fallback — indistinguishable
from `(none, false)` here. -/

/-- `parseContent(content)` of `ActionHandler`: `(data, isYaml)`. -/
def parseContent : Content → Option Value × Bool
  | .raw _ => (none, false)
  | .yamlDoc v => (some v, true)
  | .jsonDoc v => (some v, false)

/-- `parseYAML(content)` as used by `evaluateYamlHasKey`: YAML is a
superset of JSON, so serialized JSON documents parse too. -/
def parseYamlModel : Content → Option Value
  | .raw _ => none
  | .yamlDoc v => some v
  | .jsonDoc v => some v

/-- `safeParseJSON(content)` as used by `evaluateJsonHasKey`: only
JSON-serialized documents parse; YAML block text yields `undefined`. -/
def parseJsonModel : Content → Option Value
  | .raw _ => none
  | .yamlDoc _ => none
  | .jsonDoc v => some v

/-- The format detection of `evaluateValueMatches` (try JSON first when
brace-led, else YAML first, falling back): on the model, any document
content yields its tree. -/
def parseAnyModel : Content → Option Value
  | .raw _ => none
  | .yamlDoc v => some v
  | .jsonDoc v => some v

/-! ### Condition Evaluator (`condition-evaluator.ts`) -/

namespace ConditionEvaluator

/-- `evaluateYamlHasKey`. -/
def evaluateYamlHasKey (condition : Condition) (content : Content) : Bool :=
  match truthy condition.key with
  | none => false
  | some key =>
    match parseYamlModel content with
    | some data => hasNestedKey data key
    | none => false  -- parse threw, caught: false

/-- `evaluateJsonHasKey`. -/
def evaluateJsonHasKey (condition : Condition) (content : Content) : Bool :=
  match truthy condition.key with
  | none => false
  | some key =>
    match parseJsonModel content with
    | some data => if data.isObjArr then hasNestedKey data key else false
    | none => false

/-- `evaluateValueMatches`. -/
def evaluateValueMatches (R : JsRegex) (condition : Condition) (content : Content) : Bool :=
  match truthy condition.key, truthy condition.pattern with
  | some key, some pat =>
    match parseAnyModel content with
    | some data =>
      if data.isObjArr then
        match getNestedValue data key with
        | some (.vstr s) => R.test pat s
        | _ => false
      else false
    | none => false
  | _, _ => false

/-- `evaluateFileExists`: the source returns `true` unconditionally
("we assume the file exists if we're processing it") and never touches
the filesystem. -/
def evaluateFileExists (_condition : Condition) (_filePath : String) : Bool :=
  true

/-- `evaluate(condition, content, filePath, context)`: dispatch on the
`type` string; unknown kinds and `custom` are logged and false. -/
def evaluate (R : JsRegex) (condition : Condition) (content : Content)
    (filePath : String) (_context : AugmentationContext) : Bool :=
  if condition.type = "yaml_has_key" then evaluateYamlHasKey condition content
  else if condition.type = "json_has_key" then evaluateJsonHasKey condition content
  else if condition.type = "value_matches" then evaluateValueMatches R condition content
  else if condition.type = "file_exists" then evaluateFileExists condition filePath
  else if condition.type = "custom" then false
  else false

end ConditionEvaluator

/-! ### Action Handler (`action-handler.ts`) -/

/-- JS `a || b` on optional strings (empty string is falsy). -/
def jsOr (a b : Option String) : Option String :=
  match a with
  | some s => if s = "" then b else some s
  | none => b

/-- JS string coercion of a possibly-`undefined` value (as it happens in
template literals and in `String.prototype.replace` pattern position). -/
def jsStrOpt : Option String → String
  | some s => s
  | none => "undefined"

namespace ActionHandler

/-- `getVersionFromSource(source, context)`. -/
def getVersionFromSource (source : Option String)
    (context : AugmentationContext) : Option String :=
  if source = some "git_tag" then truthy (context.gitTag.map stripLeadV)
  else if source = some "package_json" then truthy context.sourceVersion
  else if source = some "literal" then
    -- "Would use action.value as the literal version" — but returns null.
    none
  else truthy (context.gitTag.map stripLeadV)

/-- `updateVersionInValue(action, content, context)`. -/
def updateVersionInValue (R : JsRegex) (action : Action) (content : Content)
    (context : AugmentationContext) : Content × Option ChangeDescription :=
  match truthy action.key, truthy action.version_pattern with
  | some key, some vpat =>
    let (data?, isYaml) := parseContent content
    match data? with
    | some data =>
      if data.isObjArr then
        match getNestedValue data key with
        | some (.vstr currentValue) =>
          match R.matchG12 vpat currentValue with
          | some (g1, g2) =>
            -- "Assume the version is in the second capture group."
            let currentVersion : Option String := jsOr g2 g1
            match getVersionFromSource action.version_source context with
            | some newVersion =>
              let doUpdate : Content × Option ChangeDescription :=
                let newValue := jsReplaceFirst currentValue (jsStrOpt currentVersion) newVersion
                match setNestedValue data key (.vstr newValue) with
                | some data' =>
                  (stringifyContent isYaml data',
                   some { rule := "update_version_in_value", action := action.type,
                          key := some key, oldValue := some (.vstr currentValue),
                          newValue := some (.vstr newValue),
                          description := "Updated " ++ key ++ " from version "
                            ++ jsStrOpt currentVersion ++ " to " ++ newVersion })
                | none => (content, none)
              if action.comparison = some "greater_than" then
                match currentVersion.bind parseSemver, parseSemver newVersion with
                | some cur, some nv =>
                  if semverGt nv cur then doUpdate else (content, none)
                | _, _ => (content, none)  -- invalid semver: warn, no update
              else doUpdate
            | none => (content, none)
          | none => (content, none)
        | _ => (content, none)
      else (content, none)
    | none => (content, none)
  | _, _ => (content, none)

/-- `replaceValue(action, content, context)`: always records a change
when the document parses and the write succeeds, even if the new value
equals the stored one. -/
def replaceValue (action : Action) (content : Content) :
    Content × Option ChangeDescription :=
  match truthy action.key, action.value with
  | some key, some val =>
    let (data?, isYaml) := parseContent content
    match data? with
    | some data =>
      if data.isObjArr then
        let oldValue := getNestedValue data key
        match setNestedValue data key val with
        | some data' =>
          (stringifyContent isYaml data',
           some { rule := "replace_value", action := action.type, key := some key,
                  oldValue := oldValue, newValue := some val,
                  description := "Replaced " ++ key ++ " value" })
        | none => (content, none)
      else (content, none)
    | none => (content, none)
  | _, _ => (content, none)

/-- `setValue(action, content, context)`: only writes when nothing is
stored at the path. -/
def setValue (action : Action) (content : Content) :
    Content × Option ChangeDescription :=
  match truthy action.key, action.value with
  | some key, some val =>
    let (data?, isYaml) := parseContent content
    match data? with
    | some data =>
      if data.isObjArr then
        match getNestedValue data key with
        | some _ => (content, none)  -- do not override an existing value
        | none =>
          match setNestedValue data key val with
          | some data' =>
            (stringifyContent isYaml data',
             some { rule := "set_value", action := action.type, key := some key,
                    oldValue := none, newValue := some val,
                    description := "Set " ++ key ++ " to new value" })
          | none => (content, none)
      else (content, none)
    | none => (content, none)
  | _, _ => (content, none)

/-- `appendToArray(action, content, context)`: a missing or non-array
current value is treated as the empty array. -/
def appendToArray (action : Action) (content : Content) :
    Content × Option ChangeDescription :=
  match truthy action.key, action.value with
  | some key, some val =>
    let (data?, isYaml) := parseContent content
    match data? with
    | some data =>
      if data.isObjArr then
        let currentArray :=
          match getNestedValue data key with
          | some (.varr xs) => xs
          | _ => []
        let newArray := currentArray ++ [val]
        match setNestedValue data key (.varr newArray) with
        | some data' =>
          (stringifyContent isYaml data',
           some { rule := "append_to_array", action := action.type, key := some key,
                  oldValue := some (.varr currentArray),
                  newValue := some (.varr newArray),
                  description := "Appended value to " ++ key ++ " array" })
        | none => (content, none)
      else (content, none)
    | none => (content, none)
  | _, _ => (content, none)

/-- `apply(action, content, filePath, context)`: dispatch on the `type`
string; `custom` and unknown kinds are logged no-ops, and the
surrounding `try/catch` turns any thrown error into "no change". -/
def apply (R : JsRegex) (action : Action) (content : Content)
    (_filePath : String) (context : AugmentationContext) :
    Content × Option ChangeDescription :=
  if action.type = "update_version_in_value" then
    updateVersionInValue R action content context
  else if action.type = "replace_value" then replaceValue action content
  else if action.type = "set_value" then setValue action content
  else if action.type = "append_to_array" then appendToArray action content
  else if action.type = "custom" then (content, none)
  else (content, none)

end ActionHandler

/-! ### Pattern Matcher and the Transformation Orchestrator
(`augmentation-engine.ts`) -/

/-- `minimatch(fileName, pattern)` restricted to the glob features the
rule corpus uses: `*` (any run of characters) and `?` (one character),
everything else literal.  File names passed here are base names without
`/`, so directory-crossing subtleties of minimatch do not arise.  The
fuel argument only bounds recursion (callers pass
`pattern.length + name.length + 1`, which suffices because every step
shrinks the pattern or the name). -/
def globMatch : Nat → List Char → List Char → Bool
  | 0, _, _ => false
  | _ + 1, [], name => name.isEmpty
  | fuel + 1, '*' :: ps, name =>
    globMatch fuel ps name ||
      (match name with
       | [] => false
       | _ :: cs => globMatch fuel ('*' :: ps) cs)
  | fuel + 1, '?' :: ps, name =>
    match name with
    | [] => false
    | _ :: cs => globMatch fuel ps cs
  | fuel + 1, p :: ps, name =>
    match name with
    | [] => false
    | c :: cs => p = c && globMatch fuel ps cs

def minimatchModel (fileName pat : String) : Bool :=
  globMatch (pat.data.length + fileName.data.length + 1) pat.data fileName.data

/-- `filePath.split('/').pop() || filePath` (an empty last segment is
falsy, falling back to the whole path). -/
def jsBaseName (filePath : String) : String :=
  let last : String := ⟨((splitOnChar '/' filePath.data).getLastD [])⟩
  if last = "" then filePath else last

namespace AugmentationEngine

/-- `evaluateConditions(rule, content, filePath, context)`: empty list
means "always apply"; otherwise AND with an early `return false`. -/
def evaluateConditionsList (R : JsRegex) (conditions : List Condition)
    (content : Content) (filePath : String) (context : AugmentationContext) : Bool :=
  match conditions with
  | [] => true
  | c :: cs =>
    if ConditionEvaluator.evaluate R c content filePath context then
      evaluateConditionsList R cs content filePath context
    else false

def evaluateConditions (R : JsRegex) (rule : AugmentationRule)
    (content : Content) (filePath : String) (context : AugmentationContext) : Bool :=
  if rule.conditions.isEmpty then true
  else evaluateConditionsList R rule.conditions content filePath context

/-- The action loop of `processRule`: apply each action to the running
content; a produced change gets `change.rule = rule.name` before being
collected. -/
def runActions (R : JsRegex) (ruleName : String) (actions : List Action)
    (content : Content) (filePath : String) (context : AugmentationContext) :
    Content × List ChangeDescription :=
  match actions with
  | [] => (content, [])
  | a :: as' =>
    let r := ActionHandler.apply R a content filePath context
    let rest := runActions R ruleName as' r.1 filePath context
    (rest.1,
     (match r.2 with
      | some ch => [{ ch with rule := ruleName }]
      | none => []) ++ rest.2)

/-- `processRule(rule, content, filePath, context)`: returns the new
content, whether the rule counts as applied (at least one change), and
the rule's changes. -/
def processRule (R : JsRegex) (rule : AugmentationRule) (content : Content)
    (filePath : String) (context : AugmentationContext) :
    Content × Bool × List ChangeDescription :=
  if evaluateConditions R rule content filePath context then
    let r := runActions R rule.name rule.actions content filePath context
    (r.1, !r.2.isEmpty, r.2)
  else (content, false, [])

/-- The rule loop of `processFile`: content threads through applied
rules only; the applied rule's name and changes are appended. -/
def runRules (R : JsRegex) (rules : List AugmentationRule) (content : Content)
    (filePath : String) (context : AugmentationContext) :
    Content × List String × List ChangeDescription :=
  match rules with
  | [] => (content, [], [])
  | rule :: rs =>
    let r := processRule R rule content filePath context
    let next := if r.2.1 then r.1 else content
    let rest := runRules R rs next filePath context
    (rest.1,
     (if r.2.1 then [rule.name] else []) ++ rest.2.1,
     (if r.2.1 then r.2.2 else []) ++ rest.2.2)

/-- `getApplicableRules(fileName)`. -/
def getApplicableRules (rules : List AugmentationRule) (fileName : String) :
    List AugmentationRule :=
  rules.filter (fun rule => rule.target_files.any (fun pat => minimatchModel fileName pat))

/-- `processFile(filePath, content, context)` over the loaded rules. -/
def processFile (R : JsRegex) (rules : List AugmentationRule)
    (filePath : String) (content : Content) (context : AugmentationContext) :
    AugmentationResult :=
  let fileName := jsBaseName filePath
  let applicableRules := getApplicableRules rules fileName
  if applicableRules.isEmpty then
    { changed := false, originalContent := content, newContent := content,
      appliedRules := [], changes := [] }
  else
    let r := runRules R applicableRules content filePath context
    { changed := r.1 ≠ content, originalContent := content, newContent := r.1,
      appliedRules := r.2.1, changes := r.2.2 }

end AugmentationEngine

/-! ### Rule Loader (`rule-loader.ts`)

I/O is abstracted into the `sources` argument: one entry per
configuration source in priority order (global, project, main, env
path), `none` when the source is missing, unreadable or fails to parse
(each per-source loader catches its own errors and returns `null`).
A config contributes `config.file_augmentation?.rules || []`, modelled
as the `rules` field. -/

structure AugmentationConfig where
  rules : List AugmentationRule
  deriving DecidableEq, Repr

structure RuleLoaderState where
  rules : List AugmentationRule
  loaded : Bool
  deriving DecidableEq, Repr

namespace RuleLoader

def initialState : RuleLoaderState := { rules := [], loaded := false }

/-- `loadFromMultipleSources()`: keep the configs that loaded. -/
def loadFromMultipleSources (sources : List (Option AugmentationConfig)) :
    List AugmentationConfig :=
  sources.filterMap id

/-- `loadRules()`: on a cache miss, flat-map the rules of every loaded
source and drop the rules with `enabled === false`; cache the result. -/
def loadRules (st : RuleLoaderState) (sources : List (Option AugmentationConfig)) :
    List AugmentationRule × RuleLoaderState :=
  if st.loaded then (st.rules, st)
  else
    let rules := ((loadFromMultipleSources sources).map (fun c => c.rules)).flatten
      |>.filter (fun rule => rule.enabled ≠ some false)
    (rules, { rules := rules, loaded := true })

/-- `reset()`. -/
def reset (_st : RuleLoaderState) : RuleLoaderState :=
  { rules := [], loaded := false }

end RuleLoader

/-! ### File-update DSL (`file-update.ts`) -/

structure UpdateRule where
  name : String
  type : Option String := none
  pattern : Option String := none
  fields : Option (List String) := none
  version_strategy : Option VersionStrategy := none
  path : Option String := none
  value : Option String := none
  regex : Option String := none
  replacement : Option String := none
  deriving DecidableEq, Repr

structure Change where
  rule : String
  description : String
  oldValue : String
  newValue : String
  lineNumber : Option Nat := none
  deriving DecidableEq, Repr

structure UpdateRuleResult where
  content : String
  modified : Bool
  changes : List Change
  deriving DecidableEq, Repr

/-! #### Built-in template functions (`templateFunctions`) -/

def leadDigits (cs : List Char) : List Char := cs.takeWhile Char.isDigit

/-- `version.match(/^v?(\d+)/)?.[1] || '0'`. -/
def tfSemverMajor (version : String) : String :=
  let cs := match version.data with
    | 'v' :: rest => rest
    | cs => cs
  if (leadDigits cs).isEmpty then "0" else ⟨leadDigits cs⟩

/-- `version.match(/^v?\d+\.(\d+)/)?.[1] || '0'`. -/
def tfSemverMinor (version : String) : String :=
  let cs := match version.data with
    | 'v' :: rest => rest
    | cs => cs
  let d1 := leadDigits cs
  if d1.isEmpty then "0"
  else
    match cs.drop d1.length with
    | '.' :: rest =>
      if (leadDigits rest).isEmpty then "0" else ⟨leadDigits rest⟩
    | _ => "0"

/-- `version.match(/^v?\d+\.\d+\.(\d+)/)?.[1] || '0'`. -/
def tfSemverPatch (version : String) : String :=
  let cs := match version.data with
    | 'v' :: rest => rest
    | cs => cs
  let d1 := leadDigits cs
  if d1.isEmpty then "0"
  else
    match cs.drop d1.length with
    | '.' :: rest =>
      let d2 := leadDigits rest
      if d2.isEmpty then "0"
      else
        match rest.drop d2.length with
        | '.' :: rest2 =>
          if (leadDigits rest2).isEmpty then "0" else ⟨leadDigits rest2⟩
        | _ => "0"
    | _ => "0"

/-- `version.replace(/[^a-zA-Z0-9._-]/g, '-').toLowerCase()`. -/
def tfToDockerTag (version : String) : String :=
  ⟨version.data.map (fun c =>
    if c.isAlphanum || c = '.' || c = '_' || c = '-' then c.toLower else '-')⟩

/-- `version.replace(/^v/, '').trim()`. -/
def tfNormalizeVersion (version : String) : String :=
  jsTrim (stripLeadV version)

/-- Dispatch over `templateFunctions`; `none` means "not a known
function" (the matched text is left as-is).  A missing second argument
of the two-argument function is modelled as the string coercion
`"undefined"` (in JS the subsequent `.slice(prefix.length)` would throw,
swallowed further up; no rule in the corpus omits arguments). -/
def applyTemplateFn (name : String) (args : List String) : Option String :=
  if name = "strip" ++ "_" ++ "pre" ++ "fix" then
    let value := args.getD 0 ""
    let pfx := args.getD 1 "undefined"
    some (if pfx.data.isPrefixOf value.data then ⟨value.data.drop pfx.data.length⟩ else value)
  else if name = "semver_major" then some (tfSemverMajor (args.getD 0 ""))
  else if name = "semver_minor" then some (tfSemverMinor (args.getD 0 ""))
  else if name = "semver_patch" then some (tfSemverPatch (args.getD 0 ""))
  else if name = "to_docker_tag" then some (tfToDockerTag (args.getD 0 ""))
  else if name = "normalize_version" then some (tfNormalizeVersion (args.getD 0 ""))
  else none

/-- `args.split(',').map(arg => arg.trim().replace(/['"]/g, ''))`
(character codes 39 and 34 are the two quote characters). -/
def parseFnArgs (cs : List Char) : List String :=
  (splitOnChar ',' cs).map
    (fun a => ⟨(jsTrimList a).filter (fun c => c.toNat ≠ 39 && c.toNat ≠ 34)⟩)

/-- The template-function pass
`result.replace(/(\w+)\(([^)]+)\)/g, ...)`: a maximal word run directly
followed by `(`, a non-empty argument run free of `)`, and `)`.  Known
functions are replaced by their result, unknown ones stay literal; the
replacement is not rescanned.  The fuel only bounds recursion (callers
pass the input length). -/
def processFns : Nat → List Char → List Char
  | 0, cs => cs
  | _ + 1, [] => []
  | fuel + 1, c :: rest =>
    if isWordChar c then
      let run := (c :: rest).takeWhile isWordChar
      match (c :: rest).drop run.length with
      | '(' :: afterParen =>
        let argRun := afterParen.takeWhile (fun x => x ≠ ')')
        if argRun.isEmpty then c :: processFns fuel rest
        else
          match afterParen.drop argRun.length with
          | ')' :: tailRest =>
            (match applyTemplateFn ⟨run⟩ (parseFnArgs argRun) with
             | some repl => repl.data
             | none => run ++ '(' :: argRun ++ [')']) ++ processFns fuel tailRest
          | _ => c :: processFns fuel rest
      | _ => c :: processFns fuel rest
    else c :: processFns fuel rest

/-- `$`-escape expansion of a JS replacement string (`$$`, `$&`,
backtick-`$` = portion before the match, quote-`$` = portion after;
anything else stays literal, as for a pattern with no capture groups). -/
def expandDollar (matched before after : List Char) : List Char → List Char
  | [] => []
  | c :: rest =>
    if c = '$' then
      match rest with
      | [] => ['$']
      | c2 :: rest2 =>
        if c2 = '$' then '$' :: expandDollar matched before after rest2
        else if c2 = '&' then matched ++ expandDollar matched before after rest2
        else if c2.toNat = 96 then before ++ expandDollar matched before after rest2
        else if c2.toNat = 39 then after ++ expandDollar matched before after rest2
        else '$' :: c2 :: expandDollar matched before after rest2
    else c :: expandDollar matched before after rest

/-- Global plain-string replace with JS replacement semantics; `seen` is
the reversed already-scanned text (for the backtick escape).  The fuel
only bounds recursion (callers pass the input length, which suffices
because `pat` is non-empty). -/
def replAllD (pat rep : List Char) : Nat → List Char → List Char → List Char
  | 0, _, cs => cs
  | _ + 1, _, [] => []
  | fuel + 1, seen, c :: rest =>
    if pat.isPrefixOf (c :: rest) then
      let after := (c :: rest).drop pat.length
      expandDollar pat seen.reverse after rep ++
        replAllD pat rep fuel (pat.reverse ++ seen) after
    else c :: replAllD pat rep fuel (c :: seen) rest

/-- `result.replace(new RegExp('\\{' + key + '\\}', 'g'), value)` for a
word-like key (the keys of the rule corpus; regex metacharacters in keys
are outside the model). -/
def jsReplaceAllVar (s key rep : String) : String :=
  let pat := '\x7b' :: key.data ++ ['\x7d']
  ⟨replAllD pat rep.data s.data.length [] s.data⟩

/-- `processTemplate(template, variables)`: substitute every variable in
insertion order, then run the template-function pass. -/
def processTemplate (template : String) (vars : List (String × String)) : String :=
  let afterVars := vars.foldl (fun result kv => jsReplaceAllVar result kv.1 kv.2) template
  ⟨processFns afterVars.data.length afterVars.data⟩

/-! #### The hard-coded artifact pattern

`createRegexFromPattern('\x7bprefix\x7d-\x7bversion\x7d.\x7bext\x7d')`
returns the regex `(?<pre>.+?)-(?<ver>[\d.]+)\.(?<ext>\w+)`.
`matchCanon` implements its first-match semantics: the match starts at
index 0 with the lazily shortest non-empty prefix (equivalently, the
leftmost `-` whose right side matches), the version run is the maximal
`[\d.]` run backtracked to the last `.` that leaves a non-empty `\w`
extension. -/

def matchVerExtGo (run rest : List Char) : Nat → Option (List Char × List Char)
  | 0 => none
  | n + 1 =>
    if run.get? (n + 1) = some '.' then
      let ext := (rest.drop (n + 2)).takeWhile isWordChar
      if ext.isEmpty then matchVerExtGo run rest n
      else some (run.take (n + 1), ext)
    else matchVerExtGo run rest n

def matchVerExt (rest : List Char) : Option (List Char × List Char) :=
  let run := rest.takeWhile isVerChar
  matchVerExtGo run rest (run.length - 1)

def matchCanonGo : List Char → List Char → Option (String × String × String)
  | _, [] => none
  | acc, c :: rest =>
    if c = '-' && !acc.isEmpty then
      match matchVerExt rest with
      | some (ver, ext) => some (⟨acc.reverse⟩, ⟨ver⟩, ⟨ext⟩)
      | none => matchCanonGo (c :: acc) rest
    else matchCanonGo (c :: acc) rest

def matchCanon (s : String) : Option (String × String × String) :=
  matchCanonGo [] s.data

def canonicalArtifact : String := "\x7bprefix\x7d-\x7bversion\x7d.\x7bext\x7d"

/-- `createRegexFromPattern(pattern)`, modelled on its hard-coded branch
(source lines 543-544); the generic pattern-to-regex fallback
(lines 547-563) is not exercised by any claim and is modelled as a
matcher that matches nothing. -/
def createRegexFromPattern (pat : String) : String → Option (String × String × String) :=
  if pat = canonicalArtifact then matchCanon else fun _ => none

/-- The per-field regex `^\s*FIELD\s*:\s*(.+)$` of `applyPatternRule`,
followed by the source's `.trim()` of the captured value; fields are
literal identifiers.  `none` when the line does not match. -/
def parseFieldLine (field : String) (line : String) : Option String :=
  let cs := line.data.dropWhile isJsWs
  if field.data.isPrefixOf cs then
    let cs := (cs.drop field.data.length).dropWhile isJsWs
    match cs with
    | ':' :: rest => if rest.isEmpty then none else some (jsTrim ⟨rest⟩)
    | _ => none
  else none

/-- The per-line field loop of `applyPatternRule`: the first field whose
value matches the pattern and passes the version strategy rewrites the
line (first-occurrence replace) and records one change. -/
def patternLineFields (matcher : String → Option (String × String × String))
    (ruleName : String) (strategy : Option VersionStrategy) (syncVersion : String)
    (lineNumber : Nat) (line : String) :
    List String → String × List Change
  | [] => (line, [])
  | field :: fs =>
    match parseFieldLine field line with
    | some currentValue =>
      match matcher currentValue with
      | some (pre, ver, ext) =>
        if shouldUpdateVersion ver syncVersion strategy then
          let newValue := pre ++ "-" ++ syncVersion ++ "." ++ ext
          (jsReplaceFirst line currentValue newValue,
           [{ rule := ruleName,
              description := "Updated " ++ field ++ " version from " ++ ver
                ++ " to " ++ syncVersion,
              oldValue := currentValue, newValue := newValue,
              lineNumber := some lineNumber }])
        else patternLineFields matcher ruleName strategy syncVersion lineNumber line fs
      | none => patternLineFields matcher ruleName strategy syncVersion lineNumber line fs
    | none => patternLineFields matcher ruleName strategy syncVersion lineNumber line fs

/-- `applyPatternRule(content, rule, syncVersion, _templateVars)`. -/
def applyPatternRule (content : String) (rule : UpdateRule) (syncVersion : String) :
    UpdateRuleResult :=
  match truthy rule.pattern, rule.fields with
  | some pat, some fields =>
    let matcher := createRegexFromPattern pat
    let perLine := (splitLines content).enum.map
      (fun il => patternLineFields matcher rule.name rule.version_strategy
        syncVersion (il.1 + 1) il.2 fields)
    let changes := (perLine.map (fun r => r.2)).flatten
    { content := ⟨joinChar '\n' (perLine.map (fun r => r.1.data))⟩,
      modified := !changes.isEmpty, changes := changes }
  | _, _ => { content := content, modified := false, changes := [] }

/-- `extractVersionFromTag(tagName)` of `FileSyncService`. -/
def extractVersionFromTag (tagName : String) : String := stripLeadV tagName

/-! ### Derived observation: the current version extracted by
`updateVersionInValue` (the value the `greater_than` guard validates) -/

/-- Recomputes the `currentVersion` intermediate of
`updateVersionInValue`: the second-or-first capture group of the version
pattern matched against the string at the action's key; `none` when the
action never reaches the extraction (or the groups are absent). -/
def extractedCurrentVersion (R : JsRegex) (action : Action) (content : Content) :
    Option String :=
  match truthy action.key, truthy action.version_pattern with
  | some key, some vpat =>
    match (parseContent content).1 with
    | some data =>
      if data.isObjArr then
        match getNestedValue data key with
        | some (.vstr currentValue) =>
          match R.matchG12 vpat currentValue with
          | some (g1, g2) => jsOr g2 g1
          | none => none
        | _ => none
      else none
    | none => none
  | _, _ => none

/-! ### Concrete fixtures used by witnesses and counterexamples -/

/-- A trivial regex oracle (no rule under test consults it). -/
def regexStub : JsRegex := ⟨fun _ _ => false, fun _ _ => none⟩

/-- A regex oracle for the artifact version pattern
`(.*-)([0-9.]+)(.zip)` at the two concrete values the examples use. -/
def regexArtifact : JsRegex :=
  ⟨fun _ _ => false,
   fun pat s =>
     if pat = "(.*-)([0-9.]+)(.zip)" && s = "app-1.0.0.zip" then
       some (some "app-", some "1.0.0")
     else if pat = "(.*-)([0-9.]+)(.zip)" && s = "app-1.0.zip" then
       some (some "app-", some "1.0")
     else none⟩

/-- A rule with a single `append_to_array` action and no conditions. -/
def appendRule : AugmentationRule :=
  { name := "add-item", target_files := ["*.yaml"], conditions := [],
    actions := [{ type := "append_to_array", key := some "items",
                  value := some (.vstr "x") }] }

/-- A rule with a single `replace_value` action and no conditions. -/
def replaceRule : AugmentationRule :=
  { name := "set-env", target_files := ["*.yaml"], conditions := [],
    actions := [{ type := "replace_value", key := some "env",
                  value := some (.vstr "prod") }] }

/-- An `update_version_in_value` action whose version source is the
`literal` kind, carrying the literal value `9.9.9`. -/
def literalAction : Action :=
  { type := "update_version_in_value", key := some "artifact",
    version_pattern := some "(.*-)([0-9.]+)(.zip)",
    version_source := some "literal", value := some (.vstr "9.9.9") }

/-- An `update_version_in_value` action gated by `greater_than`. -/
def gatedAction : Action :=
  { type := "update_version_in_value", key := some "artifact",
    version_pattern := some "(.*-)([0-9.]+)(.zip)",
    version_source := some "git_tag", comparison := some "greater_than" }

/-- A document holding an artifact value with a full three-part version. -/
def artifactDoc : Content := .yamlDoc (.vobj [("artifact", .vstr "app-1.0.0.zip")])

/-- A document whose artifact version `1.0` is not valid semver. -/
def artifactDocShort : Content := .yamlDoc (.vobj [("artifact", .vstr "app-1.0.zip")])

/-- The pattern rule of spec scenarios A and B. -/
def artifactPatternRule : UpdateRule :=
  { name := "artifact_versions", type := some "pattern",
    pattern := some canonicalArtifact, fields := some ["remote_artifact"],
    version_strategy := some .replace_if_newer }

/-- An arbitrary augmentation rule whose action list is a single
`replace_value` action. -/
def singleReplaceRule (nm : String) (desc : Option String) (en : Option Bool)
    (tf : List String) (conds : List Condition) (k : String) (val : Value) :
    AugmentationRule :=
  { name := nm, description := desc, enabled := en, target_files := tf,
    conditions := conds,
    actions := [{ type := "replace_value", key := some k, value := some val }] }

/-! ## Lemmas -/

theorem updateVersionInValue_raw (R : JsRegex) (a : Action) (s : String)
    (ctx : AugmentationContext) :
    ActionHandler.updateVersionInValue R a (.raw s) ctx = (.raw s, none) := by
  cases htk : truthy a.key <;> cases htp : truthy a.version_pattern <;>
    simp [ActionHandler.updateVersionInValue, htk, htp, parseContent]

theorem replaceValue_raw (a : Action) (s : String) :
    ActionHandler.replaceValue a (.raw s) = (.raw s, none) := by
  cases htk : truthy a.key <;> cases hv : a.value <;>
    simp [ActionHandler.replaceValue, htk, hv, parseContent]

theorem setValue_raw (a : Action) (s : String) :
    ActionHandler.setValue a (.raw s) = (.raw s, none) := by
  cases htk : truthy a.key <;> cases hv : a.value <;>
    simp [ActionHandler.setValue, htk, hv, parseContent]

theorem appendToArray_raw (a : Action) (s : String) :
    ActionHandler.appendToArray a (.raw s) = (.raw s, none) := by
  cases htk : truthy a.key <;> cases hv : a.value <;>
    simp [ActionHandler.appendToArray, htk, hv, parseContent]

theorem apply_raw (R : JsRegex) (a : Action) (s : String) (fp : String)
    (ctx : AugmentationContext) :
    ActionHandler.apply R a (.raw s) fp ctx = (.raw s, none) := by
  unfold ActionHandler.apply
  split_ifs <;>
    first
      | exact updateVersionInValue_raw R a s ctx
      | exact replaceValue_raw a s
      | exact setValue_raw a s
      | exact appendToArray_raw a s
      | rfl

theorem evaluateConditionsList_eq_all (R : JsRegex) (cs : List Condition)
    (content : Content) (fp : String) (ctx : AugmentationContext) :
    AugmentationEngine.evaluateConditionsList R cs content fp ctx
      = cs.all (fun c => ConditionEvaluator.evaluate R c content fp ctx) := by
  induction cs with
  | nil => rfl
  | cons c cs ih =>
    by_cases h : ConditionEvaluator.evaluate R c content fp ctx = true <;>
      simp [AugmentationEngine.evaluateConditionsList, h, ih]

theorem loader_merge_per_source (ss : List (Option AugmentationConfig)) :
    ((ss.filterMap id).map (fun c => c.rules)).flatten.filter
        (fun rule => rule.enabled ≠ some false)
      = (ss.map (fun src =>
          match src with
          | none => []
          | some c => c.rules.filter (fun rule => rule.enabled ≠ some false))).flatten := by
  induction ss with
  | nil => rfl
  | cons src ss ih =>
    cases src with
    | none =>
      simp only [List.filterMap_cons, id_eq, List.map_cons, List.flatten_cons,
        List.nil_append]
      exact ih
    | some c =>
      simp only [List.filterMap_cons, id_eq, List.map_cons, List.flatten_cons,
        List.filter_append]
      rw [ih]

theorem evaluateConditions_eq_all (R : JsRegex) (rule : AugmentationRule)
    (content : Content) (fp : String) (ctx : AugmentationContext) :
    AugmentationEngine.evaluateConditions R rule content fp ctx
      = rule.conditions.all (fun c => ConditionEvaluator.evaluate R c content fp ctx) := by
  unfold AugmentationEngine.evaluateConditions
  cases h : rule.conditions with
  | nil => simp [h]
  | cons c cs => simp [h, evaluateConditionsList_eq_all]

theorem setField_idem (fs : List (String × Value)) (k : String) (v : Value) :
    setField (setField fs k v) k v = setField fs k v := by
  induction fs with
  | nil => simp [setField]
  | cons f fs ih =>
    obtain ⟨k', v'⟩ := f
    by_cases h : k' = k
    · subst h
      simp [setField]
    · simp [setField, h, ih]

theorem lookupField_setField (fs : List (String × Value)) (k : String) (v : Value) :
    lookupField (setField fs k v) k = some v := by
  induction fs with
  | nil => simp [setField, lookupField]
  | cons f fs ih =>
    obtain ⟨k', v'⟩ := f
    by_cases h : k' = k
    · subst h
      simp [setField, lookupField]
    · simp [setField, lookupField, h] at ih ⊢
      exact ih

theorem get?_set_self : ∀ (xs : List Value) (i : Nat) (v : Value), i < xs.length →
    (xs.set i v).get? i = some v
  | _ :: _, 0, _, _ => rfl
  | _ :: xs, i + 1, v, h => get?_set_self xs i v (by simpa using h)

theorem get?_concat_self : ∀ (xs : List Value) (v : Value),
    (xs ++ [v]).get? xs.length = some v
  | [], _ => rfl
  | _ :: xs, v => get?_concat_self xs v

theorem set_concat_self : ∀ (xs : List Value) (v : Value),
    (xs ++ [v]).set xs.length v = xs ++ [v]
  | [], _ => rfl
  | x :: xs, v => by
    simp only [List.cons_append, List.length_cons, List.set_cons_succ]
    rw [set_concat_self xs v]

theorem arrSet_get (xs : List Value) (i : Nat) (v : Value) (ys : List Value)
    (h : arrSet xs i v = some ys) : ys.get? i = some v := by
  unfold arrSet at h
  by_cases h1 : i < xs.length
  · simp only [h1, if_true, Option.some_inj] at h
    subst h
    exact get?_set_self xs i v h1
  · by_cases h2 : i = xs.length
    · subst h2
      simp only [lt_self_iff_false, if_false, if_true, Option.some_inj] at h
      subst h
      exact get?_concat_self xs v
    · simp [h1, h2] at h

theorem arrSet_idem (xs : List Value) (i : Nat) (v : Value) (ys : List Value)
    (h : arrSet xs i v = some ys) : arrSet ys i v = some ys := by
  unfold arrSet at h ⊢
  by_cases h1 : i < xs.length
  · simp only [h1, if_true, Option.some_inj] at h
    subst h
    simp [h1, List.set_set]
  · by_cases h2 : i = xs.length
    · subst h2
      simp only [lt_self_iff_false, if_false, if_true, Option.some_inj] at h
      subst h
      simp [set_concat_self]
    · simp [h1, h2] at h

theorem isObjArr_typeofObject (v : Value) (h : v.isObjArr = true) :
    v.typeofObject = true := by
  cases v <;> simp [Value.isObjArr, Value.typeofObject] at h ⊢

theorem setPath_isObjArr : ∀ (ks : List String) (v val w : Value),
    setPath ks v val = some w → w.isObjArr = true
  | [], v, val, w, h => by simp [setPath] at h
  | [k], v, val, w, h => by
    cases v with
    | vobj fs =>
      simp only [setPath, Option.some_inj] at h
      subst h
      rfl
    | varr xs =>
      simp only [setPath] at h
      cases ha : arrIndex? k with
      | none => simp [ha] at h
      | some i =>
        simp only [ha] at h
        cases hs : arrSet xs i val with
        | none => simp [hs] at h
        | some ys =>
          simp [hs] at h
          subst h
          rfl
    | vnull => simp [setPath] at h
    | vbool b => simp [setPath] at h
    | vnum n => simp [setPath] at h
    | vstr s => simp [setPath] at h
  | k :: k2 :: ks, v, val, w, h => by
    cases v with
    | vobj fs =>
      simp only [setPath] at h
      cases hc : setPath (k2 :: ks) (childFor fs k) val with
      | none => simp [hc] at h
      | some c' =>
        simp [hc] at h
        subst h
        rfl
    | varr xs =>
      simp only [setPath] at h
      cases ha : arrIndex? k with
      | none => simp [ha] at h
      | some i =>
        simp only [ha] at h
        cases hc : setPath (k2 :: ks) (childForArr xs i) val with
        | none => simp [hc] at h
        | some c' =>
          simp only [hc] at h
          cases hs : arrSet xs i c' with
          | none => simp [hs] at h
          | some ys =>
            simp [hs] at h
            subst h
            rfl
    | vnull => simp [setPath] at h
    | vbool b => simp [setPath] at h
    | vnum n => simp [setPath] at h
    | vstr s => simp [setPath] at h

theorem setPath_idem : ∀ (ks : List String) (v val w : Value),
    setPath ks v val = some w → setPath ks w val = some w
  | [], v, val, w, h => by simp [setPath] at h
  | [k], v, val, w, h => by
    cases v with
    | vobj fs =>
      simp only [setPath, Option.some_inj] at h
      subst h
      simp [setPath, setField_idem]
    | varr xs =>
      simp only [setPath] at h
      cases ha : arrIndex? k with
      | none => simp [ha] at h
      | some i =>
        simp only [ha] at h
        cases hs : arrSet xs i val with
        | none => simp [hs] at h
        | some ys =>
          simp [hs] at h
          subst h
          simp [setPath, ha, arrSet_idem xs i val ys hs]
    | vnull => simp [setPath] at h
    | vbool b => simp [setPath] at h
    | vnum n => simp [setPath] at h
    | vstr s => simp [setPath] at h
  | k :: k2 :: ks, v, val, w, h => by
    cases v with
    | vobj fs =>
      simp only [setPath] at h
      cases hc : setPath (k2 :: ks) (childFor fs k) val with
      | none => simp [hc] at h
      | some c' =>
        simp [hc] at h
        subst h
        have hobj := setPath_isObjArr (k2 :: ks) _ val c' hc
        have hchild : childFor (setField fs k c') k = c' := by
          simp [childFor, lookupField_setField, isObjArr_typeofObject c' hobj]
        simp only [setPath, hchild, setPath_idem (k2 :: ks) _ val c' hc, setField_idem]
    | varr xs =>
      simp only [setPath] at h
      cases ha : arrIndex? k with
      | none => simp [ha] at h
      | some i =>
        simp only [ha] at h
        cases hc : setPath (k2 :: ks) (childForArr xs i) val with
        | none => simp [hc] at h
        | some c' =>
          simp only [hc] at h
          cases hs : arrSet xs i c' with
          | none => simp [hs] at h
          | some ys =>
            simp [hs] at h
            subst h
            have hobj := setPath_isObjArr (k2 :: ks) _ val c' hc
            have hg : ys.get? i = some c' := arrSet_get xs i c' ys hs
            rw [List.get?_eq_getElem?] at hg
            have hchild : childForArr ys i = c' := by
              simp [childForArr, hg, isObjArr_typeofObject c' hobj]
            simp only [setPath, ha, hchild, setPath_idem (k2 :: ks) _ val c' hc,
              arrSet_idem xs i c' ys hs]
            rfl
    | vnull => simp [setPath] at h
    | vbool b => simp [setPath] at h
    | vnum n => simp [setPath] at h
    | vstr s => simp [setPath] at h

theorem runActions_changes_rule (R : JsRegex) (nm : String) (as' : List Action)
    (c : Content) (fp : String) (ctx : AugmentationContext) :
    ∀ ch ∈ (AugmentationEngine.runActions R nm as' c fp ctx).2, ch.rule = nm := by
  induction as' generalizing c with
  | nil => simp [AugmentationEngine.runActions]
  | cons a as' ih =>
    intro ch hch
    simp only [AugmentationEngine.runActions] at hch
    rcases List.mem_append.1 hch with h | h
    · cases happ : (ActionHandler.apply R a c fp ctx).2 with
      | none => simp [happ] at h
      | some ch' =>
        simp only [happ, List.mem_singleton] at h
        subst h
        rfl
    · exact ih _ ch h

theorem processRule_applied_iff (R : JsRegex) (rule : AugmentationRule) (c : Content)
    (fp : String) (ctx : AugmentationContext) :
    (AugmentationEngine.processRule R rule c fp ctx).2.1
      = !(AugmentationEngine.processRule R rule c fp ctx).2.2.isEmpty := by
  unfold AugmentationEngine.processRule
  by_cases h : AugmentationEngine.evaluateConditions R rule c fp ctx = true <;> simp [h]

theorem processRule_changes_rule (R : JsRegex) (rule : AugmentationRule) (c : Content)
    (fp : String) (ctx : AugmentationContext) :
    ∀ ch ∈ (AugmentationEngine.processRule R rule c fp ctx).2.2, ch.rule = rule.name := by
  unfold AugmentationEngine.processRule
  by_cases h : AugmentationEngine.evaluateConditions R rule c fp ctx = true
  · simp only [h, if_true]
    exact runActions_changes_rule R rule.name rule.actions c fp ctx
  · simp [h]

theorem runRules_names_iff (R : JsRegex) (rules : List AugmentationRule)
    (c : Content) (fp : String) (ctx : AugmentationContext) (nm : String) :
    nm ∈ (AugmentationEngine.runRules R rules c fp ctx).2.1
      ↔ ∃ ch ∈ (AugmentationEngine.runRules R rules c fp ctx).2.2, ch.rule = nm := by
  induction rules generalizing c with
  | nil => simp [AugmentationEngine.runRules]
  | cons rule rs ih =>
    have hap := processRule_applied_iff R rule c fp ctx
    have hrl := processRule_changes_rule R rule c fp ctx
    simp only [AugmentationEngine.runRules]
    cases happ : (AugmentationEngine.processRule R rule c fp ctx).2.1 with
    | false =>
      rw [happ] at hap
      simp only [happ, Bool.false_eq_true, if_false, List.nil_append]
      exact ih _
    | true =>
      rw [happ] at hap
      have hne : (AugmentationEngine.processRule R rule c fp ctx).2.2 ≠ [] := by
        intro h0
        rw [h0] at hap
        simp at hap
      simp only [happ, if_true]
      constructor
      · intro h
        rcases List.mem_append.1 h with h | h
        · have hnm : nm = rule.name := List.mem_singleton.1 h
          obtain ⟨ch, hch⟩ := List.exists_mem_of_ne_nil _ hne
          exact ⟨ch, List.mem_append_left _ hch, by rw [hrl ch hch, hnm]⟩
        · obtain ⟨ch, hch, hr⟩ := (ih _).1 h
          exact ⟨ch, List.mem_append_right _ hch, hr⟩
      · rintro ⟨ch, hch, hr⟩
        rcases List.mem_append.1 hch with hmem | hmem
        · exact List.mem_append_left _
            (List.mem_singleton.2 (by rw [← hr, hrl ch hmem]))
        · exact List.mem_append_right _ ((ih _).2 ⟨ch, hmem, hr⟩)

/-! ## Claims -/

/-- Claim C10 (confirmed): for every document content, file path and
context, a `file_exists` condition evaluates to true — the evaluator
never consults the filesystem (the model's `evaluate` takes no
filesystem at all, mirroring `evaluateFileExists` returning `true`
unconditionally) — so such a condition can never make a rule
inapplicable. -/
theorem claim10_file_exists_always_true (R : JsRegex) (condition : Condition)
    (content : Content) (filePath : String) (ctx : AugmentationContext)
    (h : condition.type = "file_exists") :
    ConditionEvaluator.evaluate R condition content filePath ctx = true := by
  simp [ConditionEvaluator.evaluate, h, ConditionEvaluator.evaluateFileExists]

/-- Witness for C10 at a concrete condition, content and path. -/
theorem claim10_witness :
    ConditionEvaluator.evaluate regexStub { type := "file_exists" }
      (.raw "not a document") "dir/config.yaml" {} = true :=
  claim10_file_exists_always_true regexStub _ _ _ _ rfl

/-- Claim C5 (confirmed): on content that is neither valid YAML nor
valid JSON (`Content.raw`), every action — document-targeting or not —
returns the content unmodified with no change record, and every
condition that reads the document (`yaml_has_key`, `json_has_key`,
`value_matches`) evaluates to false.  All modelled functions are total,
mirroring the `try/catch` fail-open wrappers of the source. -/
theorem claim5_raw_content_is_inert (R : JsRegex) (s : String) (fp : String)
    (ctx : AugmentationContext) :
    (∀ action : Action, ActionHandler.apply R action (.raw s) fp ctx = (.raw s, none))
    ∧ (∀ condition : Condition,
        condition.type = "yaml_has_key" ∨ condition.type = "json_has_key"
          ∨ condition.type = "value_matches" →
        ConditionEvaluator.evaluate R condition (.raw s) fp ctx = false) := by
  constructor
  · intro action
    exact apply_raw R action s fp ctx
  · intro condition h
    rcases h with h | h | h <;>
      simp only [ConditionEvaluator.evaluate, h] <;>
      cases htk : truthy condition.key <;>
      cases htp : truthy condition.pattern <;>
      simp [ConditionEvaluator.evaluateYamlHasKey, ConditionEvaluator.evaluateJsonHasKey,
        ConditionEvaluator.evaluateValueMatches, htk, htp,
        parseYamlModel, parseJsonModel, parseAnyModel]

/-- Witness for C5: a concrete unparseable text with a `replace_value`
action and a `value_matches` condition. -/
theorem claim5_witness :
    ActionHandler.apply regexStub
      { type := "replace_value", key := some "env", value := some (.vstr "prod") }
      (.raw "\x7b invalid json ") "config.yaml" {} = (.raw "\x7b invalid json ", none)
    ∧ ConditionEvaluator.evaluate regexStub
      { type := "value_matches", key := some "env", pattern := some ".*" }
      (.raw "\x7b invalid json ") "config.yaml" {} = false :=
  ⟨(claim5_raw_content_is_inert regexStub "\x7b invalid json " "config.yaml" {}).1 _,
   (claim5_raw_content_is_inert regexStub "\x7b invalid json " "config.yaml" {}).2 _
     (Or.inr (Or.inr rfl))⟩

/-- Claim C6 (confirmed): a rule with an empty condition list is
applicable; otherwise it is applicable exactly when every condition
evaluates to true (AND semantics), and once any listed condition
evaluates to false the rule does not apply regardless of the later
conditions. -/
theorem claim6_condition_and_semantics (R : JsRegex) (rule : AugmentationRule)
    (content : Content) (fp : String) (ctx : AugmentationContext) :
    (rule.conditions = [] → AugmentationEngine.evaluateConditions R rule content fp ctx = true)
    ∧ (AugmentationEngine.evaluateConditions R rule content fp ctx = true
        ↔ ∀ c ∈ rule.conditions, ConditionEvaluator.evaluate R c content fp ctx = true)
    ∧ (∀ cs₁ (c : Condition) cs₂, rule.conditions = cs₁ ++ c :: cs₂ →
        ConditionEvaluator.evaluate R c content fp ctx = false →
        AugmentationEngine.evaluateConditions R rule content fp ctx = false) := by
  refine ⟨fun h => ?_, ?_, fun cs₁ c cs₂ hsplit hc => ?_⟩
  · simp [AugmentationEngine.evaluateConditions, h]
  · rw [evaluateConditions_eq_all]
    simp [List.all_eq_true]
  · rw [evaluateConditions_eq_all, hsplit]
    simp only [List.all_append, List.all_cons, hc]
    simp

/-- Witness for C6: a two-condition rule whose second condition targets
a missing key does not apply (spec scenario D shape), and a rule with no
conditions applies. -/
theorem claim6_witness :
    AugmentationEngine.evaluateConditions regexStub
      { name := "r", target_files := ["*.yaml"],
        conditions := [{ type := "file_exists" },
                       { type := "yaml_has_key", key := some "missing" }],
        actions := [] }
      (.yamlDoc (.vobj [("env", .vstr "dev")])) "config.yaml" {} = false
    ∧ AugmentationEngine.evaluateConditions regexStub
      { name := "r", target_files := ["*.yaml"], conditions := [], actions := [] }
      (.yamlDoc (.vobj [("env", .vstr "dev")])) "config.yaml" {} = true := by
  constructor
  · exact (claim6_condition_and_semantics regexStub _ _ _ _).2.2
      [{ type := "file_exists" }] { type := "yaml_has_key", key := some "missing" } []
      rfl (by decide)
  · exact (claim6_condition_and_semantics regexStub _ _ _ _).1 rfl

/-- Claim C7 (confirmed): `loadRules` returns the concatenation (union,
not override) of the rule arrays of every readable source with exactly
the `enabled: false` rules removed; an unreadable source contributes the
empty list; after the first load the result is cached and returned
without consulting the sources, until `reset` clears the cache. -/
theorem claim7_rule_loader (sources sources' sources'' : List (Option AugmentationConfig)) :
    (RuleLoader.loadRules RuleLoader.initialState sources).1
      = (sources.map (fun src =>
          match src with
          | none => []
          | some c => c.rules.filter (fun rule => rule.enabled ≠ some false))).flatten
    ∧ RuleLoader.loadRules (RuleLoader.loadRules RuleLoader.initialState sources).2 sources'
        = ((RuleLoader.loadRules RuleLoader.initialState sources).1,
           (RuleLoader.loadRules RuleLoader.initialState sources).2)
    ∧ RuleLoader.loadRules
        (RuleLoader.reset (RuleLoader.loadRules RuleLoader.initialState sources).2) sources''
        = RuleLoader.loadRules RuleLoader.initialState sources'' := by
  refine ⟨?_, rfl, rfl⟩
  have h1 : (RuleLoader.loadRules RuleLoader.initialState sources).1
      = ((sources.filterMap id).map (fun c => c.rules)).flatten.filter
          (fun rule => rule.enabled ≠ some false) := rfl
  rw [h1]
  exact loader_merge_per_source sources

/-- Claim C3 (confirmed): for the pattern rule
`\x7bprefix\x7d-\x7bversion\x7d.\x7bext\x7d` on field `remote_artifact`
with strategy `replace_if_newer` and the sync version of tag `v1.4.5`:
scenario A (`remote_artifact: app-1.0.0.zip`) yields
`remote_artifact: app-1.4.5.zip` with exactly one change whose old value
is `app-1.0.0.zip` and new value `app-1.4.5.zip`; scenario B
(current value `app-2.0.0.zip`) leaves the content unchanged with zero
changes. -/
theorem claim3_scenarios_a_and_b :
    applyPatternRule "remote_artifact: app-1.0.0.zip" artifactPatternRule
        (extractVersionFromTag "v1.4.5")
      = { content := "remote_artifact: app-1.4.5.zip", modified := true,
          changes := [{ rule := "artifact_versions",
                        description := "Updated remote_artifact version from 1.0.0 to 1.4.5",
                        oldValue := "app-1.0.0.zip", newValue := "app-1.4.5.zip",
                        lineNumber := some 1 }] }
    ∧ applyPatternRule "remote_artifact: app-2.0.0.zip" artifactPatternRule
        (extractVersionFromTag "v1.4.5")
      = { content := "remote_artifact: app-2.0.0.zip", modified := false, changes := [] } := by
  constructor <;> rfl

theorem processFile_single_replace (R : JsRegex) (nm : String) (desc : Option String)
    (en : Option Bool) (tf : List String) (conds : List Condition)
    (k : String) (val : Value) (fp : String) (ctx : AugmentationContext)
    (fmt : Bool) (v w : Value)
    (hk : k ≠ "")
    (hap : tf.any (fun pat => minimatchModel (jsBaseName fp) pat) = true)
    (hobj : v.isObjArr = true)
    (hset : setNestedValue v k val = some w)
    (hconds : AugmentationEngine.evaluateConditions R
      (singleReplaceRule nm desc en tf conds k val) (stringifyContent fmt v) fp ctx
      = true) :
    AugmentationEngine.processFile R [singleReplaceRule nm desc en tf conds k val]
        fp (stringifyContent fmt v) ctx
      = { changed := decide (stringifyContent fmt w ≠ stringifyContent fmt v),
          originalContent := stringifyContent fmt v,
          newContent := stringifyContent fmt w,
          appliedRules := [nm],
          changes := [{ rule := nm, action := "replace_value", key := some k,
                        oldValue := getNestedValue v k, newValue := some val,
                        description := "Replaced " ++ k ++ " value" }] } := by
  have hfilter : AugmentationEngine.getApplicableRules
      [singleReplaceRule nm desc en tf conds k val] (jsBaseName fp)
      = [singleReplaceRule nm desc en tf conds k val] := by
    simp [AugmentationEngine.getApplicableRules, singleReplaceRule, hap]
  have happly : ActionHandler.apply R
      { type := "replace_value", key := some k, value := some val }
      (stringifyContent fmt v) fp ctx
      = (stringifyContent fmt w,
         some { rule := "replace_value", action := "replace_value", key := some k,
                oldValue := getNestedValue v k, newValue := some val,
                description := "Replaced " ++ k ++ " value" }) := by
    cases fmt <;>
      simp [ActionHandler.apply, ActionHandler.replaceValue, truthy, hk,
        parseContent, stringifyContent, hobj, hset, getNestedValue]
  unfold AugmentationEngine.processFile
  simp only [hfilter]
  simp only [List.isEmpty_cons, Bool.false_eq_true, if_false]
  unfold AugmentationEngine.runRules AugmentationEngine.processRule
  simp only [hconds, if_true]
  unfold AugmentationEngine.runActions
  simp only [singleReplaceRule] at happly ⊢
  rw [happly]
  simp [AugmentationEngine.runRules, AugmentationEngine.runActions]

/-- Claim C4 (confirmed): for every file path, content, context and
loaded rule set, `processFile` reports `changed = true` exactly when the
final content differs from the input content, and a name appears in
`appliedRules` exactly when some recorded change belongs to a rule of
that name — i.e. at least one of that rule's actions produced a change
(every recorded change is tagged `change.rule = rule.name` and a rule is
pushed to `appliedRules` precisely when its change list is non-empty). -/
theorem claim4_changed_and_applied_rules (R : JsRegex) (rules : List AugmentationRule)
    (fp : String) (c : Content) (ctx : AugmentationContext) :
    ((AugmentationEngine.processFile R rules fp c ctx).changed = true
      ↔ (AugmentationEngine.processFile R rules fp c ctx).newContent ≠ c)
    ∧ ∀ nm : String,
        nm ∈ (AugmentationEngine.processFile R rules fp c ctx).appliedRules
          ↔ ∃ ch ∈ (AugmentationEngine.processFile R rules fp c ctx).changes,
              ch.rule = nm := by
  unfold AugmentationEngine.processFile
  by_cases hemp :
      (AugmentationEngine.getApplicableRules rules (jsBaseName fp)).isEmpty = true
  · simp [hemp]
  · simp only [hemp, Bool.false_eq_true, if_false]
    constructor
    · simp [decide_eq_true_iff]
    · intro nm
      exact runRules_names_iff R _ c fp ctx nm

/-- Witness for C4 at a concrete rule set, file and document. -/
theorem claim4_witness :
    ((AugmentationEngine.processFile regexStub [replaceRule] "config.yaml"
        (.yamlDoc (.vobj [("env", .vstr "dev")])) {}).changed = true
      ↔ (AugmentationEngine.processFile regexStub [replaceRule] "config.yaml"
        (.yamlDoc (.vobj [("env", .vstr "dev")])) {}).newContent
          ≠ .yamlDoc (.vobj [("env", .vstr "dev")]))
    ∧ ∀ nm : String,
        nm ∈ (AugmentationEngine.processFile regexStub [replaceRule] "config.yaml"
          (.yamlDoc (.vobj [("env", .vstr "dev")])) {}).appliedRules
          ↔ ∃ ch ∈ (AugmentationEngine.processFile regexStub [replaceRule] "config.yaml"
              (.yamlDoc (.vobj [("env", .vstr "dev")])) {}).changes, ch.rule = nm :=
  claim4_changed_and_applied_rules regexStub [replaceRule] "config.yaml"
    (.yamlDoc (.vobj [("env", .vstr "dev")])) {}

/-- Witness for C7 at concrete sources: one readable source with an
enabled and a disabled rule, one unreadable source. -/
theorem claim7_witness :
    (RuleLoader.loadRules RuleLoader.initialState
        [some ⟨[replaceRule, { appendRule with enabled := some false }]⟩, none]).1
      = ([some (⟨[replaceRule, { appendRule with enabled := some false }]⟩ :
            AugmentationConfig), none].map (fun src =>
          match src with
          | none => []
          | some c => c.rules.filter (fun rule => rule.enabled ≠ some false))).flatten
    ∧ RuleLoader.loadRules
        (RuleLoader.loadRules RuleLoader.initialState
          [some ⟨[replaceRule, { appendRule with enabled := some false }]⟩, none]).2 []
      = ((RuleLoader.loadRules RuleLoader.initialState
            [some ⟨[replaceRule, { appendRule with enabled := some false }]⟩, none]).1,
         (RuleLoader.loadRules RuleLoader.initialState
            [some ⟨[replaceRule, { appendRule with enabled := some false }]⟩, none]).2)
    ∧ RuleLoader.loadRules
        (RuleLoader.reset (RuleLoader.loadRules RuleLoader.initialState
          [some ⟨[replaceRule, { appendRule with enabled := some false }]⟩, none]).2) []
      = RuleLoader.loadRules RuleLoader.initialState [] :=
  claim7_rule_loader
    [some ⟨[replaceRule, { appendRule with enabled := some false }]⟩, none] [] []

/-- Counterexample to claim C1: processing is not idempotent for every
rule, and an action that sets a path to its stored value still records a
change.  Concretely: a no-condition rule (its conditions trivially hold)
with an `append_to_array` action appends again on the second
`processFile` run, so the second run reports `changed = true`; and a
`replace_value` action writing the value already stored at the path
still produces a change record. -/
theorem claim1_counterexample :
    (AugmentationEngine.processFile regexStub [appendRule] "config.yaml"
        (AugmentationEngine.processFile regexStub [appendRule] "config.yaml"
          (.yamlDoc (.vobj [("items", .varr [])])) {}).newContent {}).changed = true
    ∧ (ActionHandler.apply regexStub
        { type := "replace_value", key := some "env", value := some (.vstr "prod") }
        (.yamlDoc (.vobj [("env", .vstr "prod")])) "config.yaml" {}).2
      = some { rule := "replace_value", action := "replace_value", key := some "env",
               oldValue := some (.vstr "prod"), newValue := some (.vstr "prod"),
               description := "Replaced env value" } := by
  constructor
  · decide
  · rfl

/-- Claim C1 (corrected): second-run idempotence holds for a rule whose
single action is `replace_value` (with a non-empty key and a defined
value): when the rule applies to the file, its conditions hold on both
runs, the document parses to an object or array and the write succeeds,
the second `processFile` run reports `changed = false` — but contrary to
the claim's "no change record", the action that re-sets the path to the
value already stored there still records a change (`replace_value`
records one whenever the document parses), and rules are not idempotent
in general (`append_to_array` appends on every run, see the
counterexample). -/
theorem claim1_amended (R : JsRegex) (nm : String) (desc : Option String)
    (en : Option Bool) (tf : List String) (conds : List Condition)
    (k : String) (val : Value) (fp : String) (ctx : AugmentationContext)
    (fmt : Bool) (v w : Value)
    (hk : k ≠ "")
    (hap : tf.any (fun pat => minimatchModel (jsBaseName fp) pat) = true)
    (hobj : v.isObjArr = true)
    (hset : setNestedValue v k val = some w)
    (hconds1 : AugmentationEngine.evaluateConditions R
      (singleReplaceRule nm desc en tf conds k val) (stringifyContent fmt v) fp ctx
      = true)
    (hconds2 : AugmentationEngine.evaluateConditions R
      (singleReplaceRule nm desc en tf conds k val) (stringifyContent fmt w) fp ctx
      = true) :
    (AugmentationEngine.processFile R [singleReplaceRule nm desc en tf conds k val]
        fp (stringifyContent fmt v) ctx).newContent = stringifyContent fmt w
    ∧ (AugmentationEngine.processFile R [singleReplaceRule nm desc en tf conds k val]
        fp (AugmentationEngine.processFile R [singleReplaceRule nm desc en tf conds k val]
            fp (stringifyContent fmt v) ctx).newContent ctx).changed = false
    ∧ (AugmentationEngine.processFile R [singleReplaceRule nm desc en tf conds k val]
        fp (AugmentationEngine.processFile R [singleReplaceRule nm desc en tf conds k val]
            fp (stringifyContent fmt v) ctx).newContent ctx).changes ≠ [] := by
  have h1 := processFile_single_replace R nm desc en tf conds k val fp ctx fmt v w
    hk hap hobj hset hconds1
  have hobj2 : w.isObjArr = true := setPath_isObjArr (splitKeys k) v val w hset
  have hset2 : setNestedValue w k val = some w := setPath_idem (splitKeys k) v val w hset
  have h2 := processFile_single_replace R nm desc en tf conds k val fp ctx fmt w w
    hk hap hobj2 hset2 hconds2
  refine ⟨by rw [h1], ?_, ?_⟩
  · rw [h1]
    simp only []
    rw [h2]
    simp
  · rw [h1]
    simp only []
    rw [h2]
    simp

/-- Witness for C1 (amended) at a concrete rule and document: the rule
replaces `env` with `prod`; running it twice from `env: dev` leaves the
second run unchanged while still recording a change. -/
theorem claim1_witness :
    (AugmentationEngine.processFile regexStub [replaceRule] "config.yaml"
        (.yamlDoc (.vobj [("env", .vstr "dev")])) {}).newContent
      = .yamlDoc (.vobj [("env", .vstr "prod")])
    ∧ (AugmentationEngine.processFile regexStub [replaceRule] "config.yaml"
        (AugmentationEngine.processFile regexStub [replaceRule] "config.yaml"
          (.yamlDoc (.vobj [("env", .vstr "dev")])) {}).newContent {}).changed = false
    ∧ (AugmentationEngine.processFile regexStub [replaceRule] "config.yaml"
        (AugmentationEngine.processFile regexStub [replaceRule] "config.yaml"
          (.yamlDoc (.vobj [("env", .vstr "dev")])) {}).newContent {}).changes ≠ [] :=
  claim1_amended regexStub "set-env" none none ["*.yaml"] [] "env" (.vstr "prod")
    "config.yaml" {} true (.vobj [("env", .vstr "dev")]) (.vobj [("env", .vstr "prod")])
    (by decide) (by decide) (by decide) (by decide) (by decide) (by decide)

/-- Counterexample to claim C2: `"abc"` does not parse as numeric
`major[.minor[.patch]]` components, yet `compareVersions` returns the
ordinary comparable answer `1` (no "not comparable" signal: `parseInt(n)
|| 0` coerces the junk to `0`), and the `replace_if_newer` strategy
decides to update.  End to end, the value `app-1.2.3.4.zip` — whose
`1.2.3.4` also fails the `major[.minor[.patch]]` grammar — is rewritten
by the pattern rule instead of being left alone. -/
theorem claim2_counterexample :
    compareVersions "1.0.0" "abc" = some 1
    ∧ shouldUpdateVersion "abc" "1.0.0" (some .replace_if_newer) = true
    ∧ (applyPatternRule "remote_artifact: app-1.2.3.4.zip" artifactPatternRule
        "1.4.5").modified = true := by
  refine ⟨rfl, rfl, rfl⟩

/-- Claim C2 (corrected): the comparator of the file-update DSL never
throws but does not signal "not comparable" either — non-numeric
components are coerced to `0`, so `replace_if_newer` can update over an
unparseable current version.  What holds is: (1) the `greater_than`
comparison of `update_version_in_value` performs no update whenever the
extracted current version or the computed new version is not valid
semver; and (2) in the cases where `compareVersions` does return its
`NaN` result (one side missing its minor component), both version-gated
strategies decline to update. -/
theorem claim2_amended (R : JsRegex) (action : Action) (content : Content)
    (ctx : AugmentationContext)
    (hcmp : action.comparison = some "greater_than")
    (hbad : (extractedCurrentVersion R action content).bind parseSemver = none
          ∨ (ActionHandler.getVersionFromSource action.version_source ctx).bind
              parseSemver = none) :
    ActionHandler.updateVersionInValue R action content ctx = (content, none)
    ∧ (∀ v1 v2 : String, compareVersions v2 v1 = none →
        shouldUpdateVersion v1 v2 (some .replace_if_newer) = false
        ∧ shouldUpdateVersion v1 v2 (some .replace_if_newer_or_equal) = false) := by
  constructor
  · unfold ActionHandler.updateVersionInValue
    unfold extractedCurrentVersion at hbad
    cases htk : truthy action.key with
    | none => simp [htk]
    | some key =>
      cases htp : truthy action.version_pattern with
      | none => simp [htk, htp]
      | some vpat =>
        rcases hpc : parseContent content with ⟨data?, isYaml⟩
        simp only [htk, htp, hpc] at hbad ⊢
        cases data? with
        | none => simp
        | some data =>
          cases hobj : data.isObjArr with
          | false => simp [hobj]
          | true =>
            simp only [hobj, if_true] at hbad ⊢
            cases hget : getNestedValue data key with
            | none => simp [hget]
            | some w =>
              simp only [hget] at hbad ⊢
              cases w with
              | vnull => simp
              | vbool b => simp
              | vnum n => simp
              | varr xs => simp
              | vobj fs => simp
              | vstr currentValue =>
                cases hm : R.matchG12 vpat currentValue with
                | none => simp [hm]
                | some g =>
                  rcases g with ⟨g1, g2⟩
                  simp only [hm] at hbad ⊢
                  cases hv : ActionHandler.getVersionFromSource action.version_source ctx with
                  | none => simp [hv]
                  | some newVersion =>
                    simp only [hv, hcmp, if_true] at hbad ⊢
                    rcases hbad with hb | hb
                    · simp [hb]
                    · have hps : parseSemver newVersion = none := by simpa using hb
                      simp [hps]
  · intro v1 v2 h
    constructor <;> simp [shouldUpdateVersion, h]

/-- Witness for C2: the artifact value `app-1.0.zip` carries the
version `1.0`, which is not valid semver, so the `greater_than`-gated
action makes no change even though the tag version `2.0.0` is valid. -/
theorem claim2_witness :
    (extractedCurrentVersion regexArtifact gatedAction artifactDocShort).bind
        parseSemver = none
    ∧ ActionHandler.updateVersionInValue regexArtifact gatedAction artifactDocShort
        { gitTag := some "v2.0.0" } = (artifactDocShort, none) :=
  ⟨rfl,
   (claim2_amended regexArtifact gatedAction artifactDocShort { gitTag := some "v2.0.0" }
      rfl (Or.inl rfl)).1⟩

theorem sdata_append (s t : String) : (s ++ t).data = s.data ++ t.data := rfl

theorem expandDollar_no_dollar (m b a : List Char) :
    ∀ (rep : List Char), '$' ∉ rep → expandDollar m b a rep = rep
  | [], _ => rfl
  | c :: rest, h => by
    have hc : ¬(c = '$') := fun hh => h (hh ▸ List.mem_cons_self c rest)
    have hrest : '$' ∉ rest := fun hh => h (List.mem_cons_of_mem _ hh)
    rw [expandDollar.eq_def]
    simp [hc, expandDollar_no_dollar m b a rest hrest]

theorem isPrefixOf_append_self (l x : List Char) : l.isPrefixOf (l ++ x) = true := by
  induction l with
  | nil => simp [List.isPrefixOf]
  | cons a l ih => simp [List.isPrefixOf, ih]

theorem isPrefixOf_false_of_head_ne (p c : Char) (ps cs : List Char)
    (h : ¬(p = c)) : (p :: ps).isPrefixOf (c :: cs) = false := by
  simp [List.isPrefixOf, h]

theorem isPrefixOf_false_of_second_ne (p0 p1 c1 : Char) (ps cs : List Char)
    (h : ¬(p1 = c1)) : (p0 :: p1 :: ps).isPrefixOf (p0 :: c1 :: cs) = false := by
  simp [List.isPrefixOf, h]

theorem replAllD_no_brace (pt rep : List Char) (cs : List Char) (h : '\x7b' ∉ cs) :
    ∀ (fuel : Nat) (seen : List Char), replAllD ('\x7b' :: pt) rep fuel seen cs = cs := by
  induction cs with
  | nil => intro fuel seen; cases fuel <;> rfl
  | cons c rest ih =>
    intro fuel seen
    have hc : ¬('\x7b' = c) := fun hh => h (hh ▸ List.mem_cons_self c rest)
    have hrest : '\x7b' ∉ rest := fun hh => h (List.mem_cons_of_mem _ hh)
    cases fuel with
    | zero => rfl
    | succ f =>
      simp only [replAllD, isPrefixOf_false_of_head_ne '\x7b' c pt rest hc,
        Bool.false_eq_true, if_false]
      rw [ih hrest f (c :: seen)]

theorem replAllD_scan (pt rep : List Char) (pre : List Char) (h : '\x7b' ∉ pre) :
    ∀ (fuel : Nat) (seen rest : List Char),
      replAllD ('\x7b' :: pt) rep (pre.length + fuel) seen (pre ++ rest)
        = pre ++ replAllD ('\x7b' :: pt) rep fuel (pre.reverse ++ seen) rest := by
  induction pre with
  | nil => intro fuel seen rest; simp
  | cons p pre ih =>
    intro fuel seen rest
    have hp : ¬('\x7b' = p) := fun hh => h (hh ▸ List.mem_cons_self p pre)
    have h' : '\x7b' ∉ pre := fun hh => h (List.mem_cons_of_mem _ hh)
    have hlen : (p :: pre).length + fuel = (pre.length + fuel) + 1 := by
      simp [Nat.add_comm, Nat.add_assoc, Nat.add_left_comm]
    rw [hlen, List.cons_append]
    simp only [replAllD, isPrefixOf_false_of_head_ne '\x7b' p pt (pre ++ rest) hp,
      Bool.false_eq_true, if_false]
    rw [ih h' fuel (p :: seen) rest]
    simp [List.append_assoc]

theorem replAllD_hit (pt rep : List Char) (fuel : Nat) (seen rest : List Char) :
    replAllD ('\x7b' :: pt) rep (fuel + 1) seen (('\x7b' :: pt) ++ rest)
      = expandDollar ('\x7b' :: pt) seen.reverse rest rep
        ++ replAllD ('\x7b' :: pt) rep fuel (('\x7b' :: pt).reverse ++ seen) rest := by
  have hpre := isPrefixOf_append_self ('\x7b' :: pt) rest
  simp only [List.cons_append] at hpre ⊢
  simp only [replAllD, hpre, if_true]
  have hdrop : (('\x7b' :: pt) ++ rest).drop ('\x7b' :: pt).length = rest :=
    List.drop_left ('\x7b' :: pt) rest
  simp only [List.cons_append] at hdrop
  rw [hdrop]

theorem processFns_no_paren (cs : List Char) (h : '(' ∉ cs) :
    ∀ fuel : Nat, processFns fuel cs = cs := by
  induction cs with
  | nil => intro fuel; cases fuel <;> rfl
  | cons c rest ih =>
    intro fuel
    have hrest : '(' ∉ rest := fun hh => h (List.mem_cons_of_mem _ hh)
    cases fuel with
    | zero => rfl
    | succ f =>
      by_cases hw : isWordChar c = true
      · simp only [processFns, hw, if_true]
        split
        · next afterParen heq =>
          exfalso
          have hm : '(' ∈ (c :: rest).drop
              ((c :: rest).takeWhile isWordChar).length := by
            rw [heq]
            exact List.mem_cons_self _ _
          exact h (List.drop_subset _ _ hm)
        · next heq =>
          rw [ih hrest f]
      · simp only [processFns, hw, Bool.false_eq_true, if_false]
        rw [ih hrest f]

/-- Counterexample to claim C8: the template expander substitutes the
variable for the whole `\x7bname\x7d` placeholder, but for the
`\x7b\x7bname\x7d\x7d` syntax it only replaces the inner
`\x7bname\x7d`, leaving a literal brace pair around the value: the
template consisting of the double-brace placeholder alone expands to
`\x7b2.1.0\x7d`, not to `2.1.0`. -/
theorem claim8_counterexample :
    processTemplate "\x7b\x7btag\x7d\x7d" [("tag", "2.1.0")] = "\x7b2.1.0\x7d"
    ∧ "\x7b2.1.0\x7d" ≠ "2.1.0" := by
  constructor
  · rfl
  · decide

/-- Claim C8 (corrected): for a word-like variable name and surrounding
text free of braces, parentheses and `$`-escapes, a `\x7bname\x7d`
template expands to the surrounding text with the variable's value in
place of the whole placeholder; but a `\x7b\x7bname\x7d\x7d` template
expands with the value in place of the inner `\x7bname\x7d` only,
keeping one literal brace pair around it. -/
theorem claim8_amended (pre nm v suf : String)
    (hnm1 : nm.data ≠ []) (hnm2 : ∀ c ∈ nm.data, isWordChar c = true)
    (hpre1 : '\x7b' ∉ pre.data) (hpre2 : '(' ∉ pre.data)
    (hsuf1 : '\x7b' ∉ suf.data) (hsuf2 : '(' ∉ suf.data)
    (hv1 : '$' ∉ v.data) (hv2 : '(' ∉ v.data) :
    processTemplate (pre ++ "\x7b" ++ nm ++ "\x7d" ++ suf) [(nm, v)]
      = pre ++ v ++ suf
    ∧ processTemplate (pre ++ "\x7b\x7b" ++ nm ++ "\x7d\x7d" ++ suf) [(nm, v)]
      = pre ++ "\x7b" ++ v ++ "\x7d" ++ suf := by
  have hpat : ('\x7b' :: (nm.data ++ ['\x7d'])) = '\x7b' :: nm.data ++ ['\x7d'] := rfl
  constructor
  · show (⟨processFns _ (jsReplaceAllVar (pre ++ "\x7b" ++ nm ++ "\x7d" ++ suf) nm v).data⟩ : String)
      = pre ++ v ++ suf
    have hdata : (pre ++ "\x7b" ++ nm ++ "\x7d" ++ suf).data
        = pre.data ++ (('\x7b' :: (nm.data ++ ['\x7d'])) ++ suf.data) := by
      simp [sdata_append, List.append_assoc]
    have hrepl : (jsReplaceAllVar (pre ++ "\x7b" ++ nm ++ "\x7d" ++ suf) nm v).data
        = pre.data ++ (v.data ++ suf.data) := by
      show replAllD ('\x7b' :: (nm.data ++ ['\x7d'])) v.data
          (pre ++ "\x7b" ++ nm ++ "\x7d" ++ suf).data.length []
          (pre ++ "\x7b" ++ nm ++ "\x7d" ++ suf).data
        = pre.data ++ (v.data ++ suf.data)
      rw [hdata]
      have hlen : (pre.data ++ (('\x7b' :: (nm.data ++ ['\x7d'])) ++ suf.data)).length
          = pre.data.length + ((nm.data.length + 1 + suf.data.length) + 1) := by
        simp [List.length_append]
        omega
      rw [hlen, replAllD_scan (nm.data ++ ['\x7d']) v.data pre.data hpre1,
        replAllD_hit (nm.data ++ ['\x7d']) v.data _ _ suf.data,
        expandDollar_no_dollar _ _ _ _ hv1,
        replAllD_no_brace (nm.data ++ ['\x7d']) v.data suf.data hsuf1]
    rw [hrepl]
    rw [processFns_no_paren _ ?hnp]
    case hnp =>
      intro hmem
      rcases List.mem_append.1 hmem with hmem | hmem
      · exact hpre2 hmem
      · rcases List.mem_append.1 hmem with hmem | hmem
        · exact hv2 hmem
        · exact hsuf2 hmem
    show (⟨pre.data ++ (v.data ++ suf.data)⟩ : String) = pre ++ v ++ suf
    have : pre ++ v ++ suf = ⟨pre.data ++ (v.data ++ suf.data)⟩ := by
      apply congrArg String.mk
      simp [sdata_append, List.append_assoc]
    rw [this]
  · show (⟨processFns _ (jsReplaceAllVar (pre ++ "\x7b\x7b" ++ nm ++ "\x7d\x7d" ++ suf) nm v).data⟩ : String)
      = pre ++ "\x7b" ++ v ++ "\x7d" ++ suf
    obtain ⟨n0, nrest, hn0⟩ : ∃ n0 nrest, nm.data = n0 :: nrest := by
      cases hnd : nm.data with
      | nil => exact absurd hnd hnm1
      | cons a l => exact ⟨a, l, rfl⟩
    have hn0w : isWordChar n0 = true := hnm2 n0 (by rw [hn0]; exact List.mem_cons_self _ _)
    have hn0ne : ¬(n0 = '\x7b') := by
      intro hh
      rw [hh] at hn0w
      simp [isWordChar] at hn0w
    have hdata : (pre ++ "\x7b\x7b" ++ nm ++ "\x7d\x7d" ++ suf).data
        = pre.data ++ ('\x7b' :: (('\x7b' :: (nm.data ++ ['\x7d'])) ++ ('\x7d' :: suf.data))) := by
      simp [sdata_append, List.append_assoc]
    have hrepl : (jsReplaceAllVar (pre ++ "\x7b\x7b" ++ nm ++ "\x7d\x7d" ++ suf) nm v).data
        = pre.data ++ ('\x7b' :: (v.data ++ ('\x7d' :: suf.data))) := by
      show replAllD ('\x7b' :: (nm.data ++ ['\x7d'])) v.data
          (pre ++ "\x7b\x7b" ++ nm ++ "\x7d\x7d" ++ suf).data.length []
          (pre ++ "\x7b\x7b" ++ nm ++ "\x7d\x7d" ++ suf).data
        = pre.data ++ ('\x7b' :: (v.data ++ ('\x7d' :: suf.data)))
      rw [hdata]
      have hlen : (pre.data ++ ('\x7b' :: (('\x7b' :: (nm.data ++ ['\x7d'])) ++ ('\x7d' :: suf.data)))).length
          = pre.data.length + (((nm.data.length + 2 + suf.data.length) + 1) + 1) := by
        simp [List.length_append]
        omega
      rw [hlen, replAllD_scan (nm.data ++ ['\x7d']) v.data pre.data hpre1]
      have hstep : replAllD ('\x7b' :: (nm.data ++ ['\x7d'])) v.data
          (((nm.data.length + 2 + suf.data.length) + 1) + 1) (pre.data.reverse ++ [])
          ('\x7b' :: (('\x7b' :: (nm.data ++ ['\x7d'])) ++ ('\x7d' :: suf.data)))
          = '\x7b' :: replAllD ('\x7b' :: (nm.data ++ ['\x7d'])) v.data
              ((nm.data.length + 2 + suf.data.length) + 1)
              ('\x7b' :: (pre.data.reverse ++ []))
              (('\x7b' :: (nm.data ++ ['\x7d'])) ++ ('\x7d' :: suf.data)) := by
        have hpf : ('\x7b' :: (nm.data ++ ['\x7d'])).isPrefixOf
            ('\x7b' :: (('\x7b' :: (nm.data ++ ['\x7d'])) ++ ('\x7d' :: suf.data))) = false := by
          rw [hn0]
          simp only [List.cons_append]
          exact isPrefixOf_false_of_second_ne '\x7b' n0 '\x7b' _ _ hn0ne
        simp only [replAllD, hpf, Bool.false_eq_true, if_false]
      rw [hstep,
        replAllD_hit (nm.data ++ ['\x7d']) v.data _ _ ('\x7d' :: suf.data),
        expandDollar_no_dollar _ _ _ _ hv1,
        replAllD_no_brace (nm.data ++ ['\x7d']) v.data ('\x7d' :: suf.data) ?hbr]
      case hbr =>
        intro hmem
        rcases List.mem_cons.1 hmem with hmem | hmem
        · exact absurd hmem.symm (by decide)
        · exact hsuf1 hmem
    rw [hrepl]
    rw [processFns_no_paren _ ?hnp2]
    case hnp2 =>
      intro hmem
      rcases List.mem_append.1 hmem with hmem | hmem
      · exact hpre2 hmem
      · rcases List.mem_cons.1 hmem with hmem | hmem
        · exact absurd hmem.symm (by decide)
        · rcases List.mem_append.1 hmem with hmem | hmem
          · exact hv2 hmem
          · rcases List.mem_cons.1 hmem with hmem | hmem
            · exact absurd hmem.symm (by decide)
            · exact hsuf2 hmem
    apply congrArg String.mk
    show pre.data ++ ('\x7b' :: (v.data ++ ('\x7d' :: suf.data)))
      = (pre ++ "\x7b" ++ v ++ "\x7d" ++ suf).data
    simp [sdata_append, List.append_assoc]

/-- Witness for C8 (amended) at concrete templates: `x-\x7btag\x7d.zip`
expands fully, while `img:\x7b\x7btag\x7d\x7d` keeps one brace pair. -/
theorem claim8_witness :
    processTemplate "x-\x7btag\x7d.zip" [("tag", "2.1.0")] = "x-2.1.0.zip"
    ∧ processTemplate "img:\x7b\x7btag\x7d\x7d" [("tag", "2.1.0")] = "img:\x7b2.1.0\x7d" := by
  constructor
  · have h := (claim8_amended "x-" "tag" "2.1.0" ".zip" (by decide)
      (by decide) (by decide) (by decide) (by decide) (by decide)
      (by decide) (by decide)).1
    exact h
  · have h := (claim8_amended "img:" "tag" "2.1.0" "" (by decide)
      (by decide) (by decide) (by decide) (by decide) (by decide)
      (by decide) (by decide)).2
    exact h

/-- Claim C9 (code bug): the spec says an `update_version_in_value`
action with the `literal` version source uses the configured literal
value as the replacement version, but `getVersionFromSource` returns
`null` for `'literal'` (its own comment reads "Would use action.value as
the literal version"), so the action performs no update at all: here the
document holds `app-1.0.0.zip`, the pattern matches, the literal value
`9.9.9` is configured, and the handler returns the content unchanged
with no change record. -/
theorem claim9_literal_source_is_noop :
    ActionHandler.getVersionFromSource (some "literal") { gitTag := some "v9.9.9" } = none
    ∧ ActionHandler.apply regexArtifact literalAction artifactDoc
        "InfrastructureAsCodeFile.yml" { gitTag := some "v9.9.9" }
      = (artifactDoc, none) := by
  refine ⟨rfl, rfl⟩

end RepoSync
